import Mathlib

/-!
# Prompt checker (`package checker`): embedding and verified properties

Go strings are modelled as sequences of code points (`Str`), which is what the
checker observes on well-formed UTF-8 text; `len` is the UTF-8 byte count.
An `error` value is an `Option Str` holding the message (`none` is `nil`).

Everything the package reads but does not define is collected in `Env`:
the tables of package `model`, the Unicode tables of the standard library
beyond ASCII, `strconv.ParseFloat`, the `xurls` extractor and the HTTP client.
-/

set_option autoImplicit false

namespace Checker

/-- A Go string holding well-formed UTF-8 text. -/
abbrev Str := List Char

instance : Coe String Str := ⟨String.toList⟩

/-- The values of a `float64` as far as comparisons observe them. -/
inductive Float64 where
  | nan
  | negInf
  | posInf
  | finite (q : ℚ)
deriving DecidableEq

/-- Go `<` on `float64` (false whenever a NaN is involved). -/
def Float64.lt : Float64 → Float64 → Bool
  | .finite a, .finite b => decide (a < b)
  | .negInf, .finite _ => true
  | .negInf, .posInf => true
  | .finite _, .posInf => true
  | _, _ => false

/-- What the package reads from outside its own source files. -/
structure Env where
  /-- Table `model.Params`: the registered parameter names. -/
  Params : List Str
  /-- Table `model.BannedWords`, in iteration order. -/
  BannedWords : List Str
  /-- Table behind `unicode.IsSpace` for code points above ASCII. -/
  isSpace : Char → Bool
  /-- Table behind `unicode.IsLetter` for code points above ASCII. -/
  isLetter : Char → Bool
  /-- Table behind `unicode.ToLower` for code points above ASCII. -/
  toLower : Char → Char
  /-- Result of `strconv.ParseFloat(s, 64)`; `none` when it returns an error. -/
  ParseFloat : Str → Option Float64
  /-- Result of `xurls.Strict().FindAllString(s, -1)`. -/
  FindAllString : Str → List Str
  /-- Whether `url.Parse` accepts the proxy address. -/
  proxyParses : Str → Bool
  /-- Status code of the HEAD request for a URL through a proxy;
  `none` when building or sending the request fails. -/
  headStatus : Str → Str → Option Nat

/-! ## Standard library functions used by the package -/

/-- Builtin `len` of a string: its number of UTF-8 bytes. -/
def len (s : Str) : Nat := (s.map Char.utf8Size).sum

/-- The ASCII part of `unicode.IsSpace`. -/
def asciiSpace (c : Char) : Bool :=
  c.toNat = 9 || c.toNat = 10 || c.toNat = 11 || c.toNat = 12 || c.toNat = 13 || c.toNat = 32

/-- Function `unicode.IsSpace`. -/
def IsSpace (E : Env) (c : Char) : Bool :=
  if c.toNat < 128 then asciiSpace c else E.isSpace c

/-- Function `unicode.IsLetter`. -/
def IsLetter (E : Env) (c : Char) : Bool :=
  if c.toNat < 128 then
    (decide (65 ≤ c.toNat) && decide (c.toNat ≤ 90)) || (decide (97 ≤ c.toNat) && decide (c.toNat ≤ 122))
  else E.isLetter c

/-- Function `unicode.ToLower` on one code point. -/
def ToLowerRune (E : Env) (c : Char) : Char :=
  if c.toNat < 128 then
    (if 65 ≤ c.toNat ∧ c.toNat ≤ 90 then Char.ofNat (c.toNat + 32) else c)
  else E.toLower c

/-- Function `strings.ToLower`. -/
def ToLower (E : Env) (s : Str) : Str := s.map (ToLowerRune E)

/-- Function `strings.HasPrefix`. -/
def HasPrefix (s pre : Str) : Bool := pre.isPrefixOf s

/-- Function `strings.HasSuffix`. -/
def HasSuffix (s suf : Str) : Bool := suf.isSuffixOf s

/-- Function `strings.TrimPrefix`. -/
def TrimPrefix (s pre : Str) : Str := if HasPrefix s pre then s.drop pre.length else s

/-- Function `strings.Index`; `none` stands for `-1`. -/
def Index : Str → Str → Option Nat
  | [], sub => if sub = [] then some 0 else none
  | c :: cs, sub => if HasPrefix (c :: cs) sub then some 0 else (Index cs sub).map (· + 1)

/-- Function `strings.Contains`. -/
def Contains (s sub : Str) : Bool := (Index s sub).isSome

/-- Function `strings.Join`. -/
def Join : List Str → Str → Str
  | [], _ => []
  | [a], _ => a
  | a :: b :: rest, sep => a ++ sep ++ Join (b :: rest) sep

/-- Function `strings.Trim`: strips the code points of `cutset` from both ends. -/
def Trim (s cutset : Str) : Str :=
  ((s.dropWhile (fun c => cutset.contains c)).reverse.dropWhile (fun c => cutset.contains c)).reverse

/-- Scan of `strings.FieldsFunc`: `cur` is the field being read (empty when none is open). -/
def fieldsGo (f : Char → Bool) : Str → Str → List Str
  | cur, [] => if cur = [] then [] else [cur]
  | cur, c :: cs =>
    if f c then (if cur = [] then fieldsGo f [] cs else cur :: fieldsGo f [] cs)
    else fieldsGo f (cur ++ [c]) cs

/-- Function `strings.FieldsFunc`. -/
def FieldsFunc (s : Str) (f : Char → Bool) : List Str := fieldsGo f [] s

/-- Function `strings.Fields`. -/
def Fields (E : Env) (s : Str) : List Str := FieldsFunc s (IsSpace E)

/-- Left-to-right scan of `strings.ReplaceAll` for a non-empty `old`;
`k` counts the code points of the current match still to be skipped. -/
def replaceGo (old new : Str) : Nat → Str → Str
  | _, [] => []
  | k + 1, _ :: cs => replaceGo old new k cs
  | 0, c :: cs =>
    if HasPrefix (c :: cs) old then new ++ replaceGo old new (old.length - 1) cs
    else c :: replaceGo old new 0 cs

/-- Function `strings.ReplaceAll`. -/
def ReplaceAll (s old new : Str) : Str :=
  if old = [] then new ++ s.flatMap (fun c => c :: new) else replaceGo old new 0 s

/-- Left-to-right scan of `strings.Split` for a non-empty separator. -/
def splitGo (sep : Str) : Nat → Str → Str → List Str
  | _, cur, [] => [cur]
  | k + 1, cur, _ :: cs => splitGo sep k cur cs
  | 0, cur, c :: cs =>
    if HasPrefix (c :: cs) sep then cur :: splitGo sep (sep.length - 1) [] cs
    else splitGo sep 0 (cur ++ [c]) cs

/-- Function `strings.Split`. -/
def Split (s sep : Str) : List Str :=
  if sep = [] then s.map (fun c => [c]) else splitGo sep 0 [] s

/-- Splitting at every code point satisfying `p`, empty pieces kept. -/
def splitAt (p : Char → Bool) : Str → Str → List Str
  | cur, [] => [cur]
  | cur, c :: cs => if p c then cur :: splitAt p [] cs else splitAt p (cur ++ [c]) cs

/-- Expression `regexp.MustCompile("[ ,]").Split(s, -1)`. -/
def SplitSpaceComma (s : Str) : List Str := splitAt (fun c => c = ' ' || c = ',') [] s

/-- Value of a decimal digit. -/
def digitVal (c : Char) : Option Nat :=
  if 48 ≤ c.toNat ∧ c.toNat ≤ 57 then some (c.toNat - 48) else none

/-- Reading a run of decimal digits. -/
def parseDigits : Str → Nat → Option Nat
  | [], acc => some acc
  | c :: cs, acc =>
    match digitVal c with
    | none => none
    | some d => parseDigits cs (acc * 10 + d)

/-- Function `strconv.ParseUint(s, 10, bitSize)`; `none` when it returns an error. -/
def ParseUint (s : Str) (bitSize : Nat) : Option Nat :=
  if s = [] then none
  else match parseDigits s 0 with
    | none => none
    | some n => if n < 2 ^ bitSize then some n else none

/-- Function `strconv.Atoi` with a 64-bit `int`; `none` when it returns an error. -/
def Atoi (s : Str) : Option Int :=
  match s with
  | [] => none
  | c :: cs =>
    let neg := decide (c = '-')
    let ds := if c = '-' ∨ c = '+' then cs else c :: cs
    if ds = [] then none
    else match parseDigits ds 0 with
      | none => none
      | some n =>
        if neg then (if n ≤ 2 ^ 63 then some (-(n : Int)) else none)
        else (if n < 2 ^ 63 then some (n : Int) else none)

/-- Verb `%d` of `fmt.Sprintf` on a non-negative integer. -/
def formatNat (n : Nat) : Str := Nat.toDigits 10 n

/-! ## File `prompt_struct.go` -/

def ErrPromptEmpty : Str := "Prompt is empty, please enter a prompt"
def ErrPromptEmptyWithParams : Str := "Prompt is empty, not allowed to start with -- params"
def ErrPromptTooLong : Str := "Prompt is too long, limited to 6000 characters"

def CheckPromptLength (prompt : Str) : Option Str :=
  if len prompt > 6000 then some ErrPromptTooLong else none

def CheckPromptEmpty (prompt : Str) : Option Str :=
  if len prompt = 0 then some ErrPromptEmpty else none

def CheckPromptEmptyWithParams (prompt : Str) : Option Str :=
  if HasPrefix prompt "--" then some ErrPromptEmptyWithParams else none

def CheckPromptStruct (prompt : Str) (allowEmpty : Bool) : Option Str :=
  match (if !allowEmpty then CheckPromptEmpty prompt else none) with
  | some err => some err
  | none =>
    match CheckPromptEmptyWithParams prompt with
    | some err => some err
    | none =>
      match CheckPromptLength prompt with
      | some err => some err
      | none => none

/-! ## File `util.go` -/

/-- Returns the normalized prompt, the lowered words and the URLs. -/
def PreprocessPrompt (E : Env) (originPrompt : Str) : Str × List Str × List Str :=
  let prompt := ReplaceAll originPrompt "—" "--"
  let prompt := Trim prompt " "
  let words := Fields E prompt
  let loweredWords := words.map (ToLower E)
  let urls := E.FindAllString originPrompt
  (Join words " ", loweredWords, urls)

/-! ## File `prompt_banned_words.go` -/

/-- Inner loop of `CheckPromptBannedWords`: whether some word equals the banned word. -/
def bannedWordLoop (bannedWord : Str) : List Str → Bool
  | [] => false
  | word :: rest => if word = bannedWord then true else bannedWordLoop bannedWord rest

/-- Outer loop of `CheckPromptBannedWords` over the banned terms. -/
def bannedLoop (prompt : Str) (words : List Str) : List Str → Option Str
  | [] => none
  | bannedWord :: rest =>
    if Contains bannedWord " " && Contains prompt bannedWord then
      some ("Banned Prompt: " ++ bannedWord)
    else if bannedWordLoop bannedWord words then
      some ("Banned Prompt: " ++ bannedWord)
    else bannedLoop prompt words rest

def CheckPromptBannedWords (E : Env) (prompt : Str) : Option Str :=
  let words := FieldsFunc prompt (fun r => !IsLetter E r)
  bannedLoop prompt words E.BannedWords

/-! ## File `prompt_url.go` -/

def ImagePromptRef : Str := "https://docs.midjourney.com/docs/image-prompts"
def ErrInvalidProxyUrl : Str := "Invalid proxy url."
def ErrInternalError : Str := "Internal error."
def ErrInvalidImageUrl : Str := "Invalid image url."
def ErrInvalidImageContentType : Str :=
  "Invalid image content type, file should end in .png, .gif, .webp, .jpg, or .jpeg. You can get more details at " ++ ImagePromptRef
def ErrInvalidImagePromptPosition : Str :=
  "Invalid image prompt position, image prompt should go at the front of a prompt. You can get more details at " ++ ImagePromptRef
def ErrInvalidPromptParts : Str :=
  "Invalid prompt parts, prompts must have two images or one image and text to work. You can get more details at " ++ ImagePromptRef

/-- First loop of `CheckImageUrlPosition`: returns the parts from the index where
the loop stopped, and the count. -/
def frontLoop : List Str → Int → List Str × Int
  | [], cnt => ([], cnt)
  | p :: ps, cnt =>
    if p = [] then frontLoop ps cnt
    else if !HasPrefix p "http" then (p :: ps, cnt)
    else frontLoop ps (cnt - 1)

/-- Innermost loop of `CheckImageUrlPosition`, over the parts after `--sref`. -/
def srefRunLoop : List Str → Int → Int
  | [], cnt => cnt
  | p :: ps, cnt =>
    if p = [] then srefRunLoop ps cnt
    else if !HasPrefix p "http" then cnt
    else srefRunLoop ps (cnt - 1)

/-- Second loop of `CheckImageUrlPosition`: looks for `--sref` and leaves after it. -/
def srefLoop : List Str → Int → Int
  | [], cnt => cnt
  | p :: ps, cnt => if p ≠ ("--sref" : Str) then srefLoop ps cnt else srefRunLoop ps cnt

def CheckImageUrlPosition (parts urls : List Str) : Option Str :=
  let r := frontLoop parts (urls.length : Int)
  let cnt := srefLoop r.1 r.2
  if cnt ≠ 0 then some ErrInvalidImagePromptPosition else none

/-- Loop of `CheckImageUrlValid` over the URLs. -/
def validLoop (E : Env) (skipHeadRequest : Bool) (proxyUrl : Str) : List Str → Option Str
  | [] => none
  | u :: rest =>
    let url := (Split u "::").headD []
    if !HasSuffix url ".jpg" && !HasSuffix url ".jpeg" && !HasSuffix url ".png"
        && !HasSuffix url ".gif" && !HasSuffix url ".webp" then
      some (ErrInvalidImageContentType ++ " url: " ++ url)
    else if skipHeadRequest then validLoop E skipHeadRequest proxyUrl rest
    else
      match E.headStatus proxyUrl url with
      | none => some ErrInternalError
      | some code =>
        if code ≠ 200 then
          some (ErrInvalidImageUrl ++ " url: " ++ url ++ ", head code: " ++ formatNat code)
        else validLoop E skipHeadRequest proxyUrl rest

def CheckImageUrlValid (E : Env) (urls : List Str) (proxyUrl : Str) : Option Str :=
  if proxyUrl = [] then validLoop E true proxyUrl urls
  else if !E.proxyParses proxyUrl then some ErrInvalidProxyUrl
  else validLoop E false proxyUrl urls

def CheckImageUrl (E : Env) (prompt : Str) (urls : List Str) (proxyUrl : Str) : Option Str :=
  if urls.length = 0 then none
  else
    let parts := SplitSpaceComma prompt
    match CheckImageUrlPosition parts urls with
    | some err => some err
    | none =>
      if parts.length = 1 then some ErrInvalidPromptParts
      else
        match CheckImageUrlValid E urls proxyUrl with
        | some err => some err
        | none => none

/-! ## File `prompt_param.go` -/

def ErrPermutationUnsupported : Str := "Permutation Not Supported"
def ErrUnReconizedParam : Str := "Unrecognized Param"
def ErrInvalidParamValue : Str := "Invalid Param Value"
def ErrInvalidParamFormat : Str := "Invalid Param Format"

def CheckAspectParam (param : Str) : Bool :=
  let aspects := Split param ":"
  if aspects.length ≠ 2 then false
  else if (Atoi (aspects.getD 0 [])).isNone then false
  else if (Atoi (aspects.getD 1 [])).isNone then false
  else true

/-- Shape shared by the integer checks: `strconv.Atoi`, then a closed range. -/
def atoiInRange (param : Str) (lo hi : Int) : Bool :=
  match Atoi param with
  | none => false
  | some n => if n < lo ∨ n > hi then false else true

def CheckChaosParam (param : Str) : Bool := atoiInRange param 0 100

def CheckIWParam (E : Env) (param : Str) : Bool :=
  match E.ParseFloat param with
  | none => false
  | some iw => if Float64.lt iw (.finite 0) || Float64.lt (.finite 2) iw then false else true

def CheckQualityParam (param : Str) : Bool :=
  if param = (".25" : Str) ∨ param = (".5" : Str) ∨ param = ("1" : Str) then true else false

def CheckRepeatParam (param : Str) : Bool := atoiInRange param 1 40

def CheckSeedParam (param : Str) : Bool :=
  match ParseUint param 32 with
  | none => false
  | some _ => true

def CheckStopParam (param : Str) : Bool := atoiInRange param 10 100

def CheckStylizeParam (param : Str) : Bool := atoiInRange param 0 1000

def CheckStyleReferenceRelativeWeightParam : List Str → Bool
  | [] => true
  | url :: urls =>
    if Contains url "::" then
      let parts := Split url "::"
      let weight := parts.getD (parts.length - 1) []
      if (Atoi weight).isNone then false
      else CheckStyleReferenceRelativeWeightParam urls
    else CheckStyleReferenceRelativeWeightParam urls

def CheckStyleReferenceWeightParam (param : Str) : Bool := atoiInRange param 0 1000

def CheckWeirdParam (param : Str) : Bool := atoiInRange param 0 3000

def CheckZoomParam (E : Env) (param : Str) : Bool :=
  match E.ParseFloat param with
  | none => false
  | some ratio => if Float64.lt ratio (.finite 1) || Float64.lt (.finite 2) ratio then false else true

def CheckPermutation (prompt : Str) : Option Str :=
  if Contains prompt "\x7b" || Contains prompt "\x7d" then some ErrPermutationUnsupported else none

/-- Loop of `CheckParamLegal` over a table of names. -/
def paramLegalLoop (param : Str) : List Str → Bool
  | [] => false
  | allowedParam :: rest => if param = allowedParam then true else paramLegalLoop param rest

def CheckParamLegal (E : Env) (param : Str) : Bool := paramLegalLoop param E.Params

/-- Loop of `CheckSpaces`; the counter bounds the number of rounds. -/
def checkSpacesLoop : Nat → Str → Option Str
  | 0, _ => none
  | fuel + 1, curPrompt =>
    match Index curPrompt "--" with
    | none => none
    | some i =>
      if i = 0 ∨ curPrompt[i - 1]? ≠ some ' ' then
        some (ErrInvalidParamFormat ++ ": there should be space before --")
      else if curPrompt[i + 2]? = some ' ' then
        some (ErrInvalidParamFormat ++ ": there should be no space after --")
      else checkSpacesLoop fuel (curPrompt.drop (i + 2))

def CheckSpaces (prompt : Str) : Option Str := checkSpacesLoop prompt.length prompt

def RemoveUnsupportParams (prompt : Str) : List Str → Str
  | [] => prompt
  | param :: params => RemoveUnsupportParams (ReplaceAll prompt param "") params

/-- Local variables of `CheckPromptParam` that live across the rounds of its loop. -/
structure ScanState where
  value : Str
  aspectRatio : Str
  unsupportParams : List Str

/-- Early return out of the loop: the aspect ratio held at that point and the message. -/
abbrev ScanExit := Str × Str

/-- Message of an invalid value: `"%s: --%s %s" ++ hint`. -/
def invalidValue (param value hint : Str) : Str :=
  ErrInvalidParamValue ++ ": --" ++ param ++ " " ++ value ++ hint

/-- A block `if param == a || param == b { if !check(value) { return err } }`. -/
def checkBlock (names : List Str) (check : Str → Bool) (hint : Str) (param : Str)
    (st : ScanState) : Except ScanExit ScanState :=
  if param ∈ names then
    (if !check st.value then .error (st.aspectRatio, invalidValue param st.value hint) else .ok st)
  else .ok st

def aspectBlock (param : Str) (st : ScanState) : Except ScanExit ScanState :=
  if param = ("aspect" : Str) ∨ param = ("ar" : Str) then
    if !CheckAspectParam st.value then
      .error (st.aspectRatio, invalidValue param st.value ". Default: 1:1")
    else
      .ok { st with
        aspectRatio := st.value
        unsupportParams := st.unsupportParams ++ [(" --" : Str) ++ param ++ " " ++ st.value] }
  else .ok st

def repeatBlock (param : Str) (st : ScanState) : Except ScanExit ScanState :=
  if param = ("repeat" : Str) ∨ param = ("r" : Str) then
    if !CheckRepeatParam st.value then
      .error (st.aspectRatio, invalidValue param st.value ". Range: 1-40")
    else
      .ok { st with
        unsupportParams := st.unsupportParams ++ [(" --" : Str) ++ param ++ " " ++ st.value] }
  else .ok st

/-- Loop collecting the URLs after `--sref`: `after` holds the words beyond `cur_index`. -/
def srefUrls : List Str → Str → List Str → List Str × Str
  | [], value, urls =>
    if HasPrefix value "http" then (urls ++ [value], value) else (urls, value)
  | w :: after, value, urls =>
    if HasPrefix value "http" then srefUrls after w (urls ++ [value]) else (urls, value)

def srefBlock (param : Str) (after : List Str) (st : ScanState) : Except ScanExit ScanState :=
  if param = ("sref" : Str) then
    let r := srefUrls (after.drop 1) st.value []
    if r.1.length = 0 then
      .error (st.aspectRatio,
        ErrInvalidParamValue ++ ": --" ++ param ++ ". At least one url is required after --sref")
    else if !CheckStyleReferenceRelativeWeightParam r.1 then
      .error (st.aspectRatio,
        ErrInvalidParamValue ++ ": --" ++ param
          ++ ". Relative weights should be integers, such as: '--sref urlA::2 urlB::3 urlC::5'")
    else .ok { st with value := r.2 }
  else .ok st

/-- The blocks `if param == ... { ... }` of the loop body of `CheckPromptParam`, in order. -/
def paramChecks (E : Env) (param : Str) (after : List Str) (st : ScanState) :
    Except ScanExit ScanState :=
  (aspectBlock param st).bind fun st =>
  (checkBlock ["chaos", "c"] CheckChaosParam ". Default: 0, Range: 0-100" param st).bind fun st =>
  (checkBlock ["iw"] (CheckIWParam E) ". Default: 1, Range: 0-2" param st).bind fun st =>
  (checkBlock ["quality", "q"] CheckQualityParam ". Default: 1, Range: .25/.5/1" param st).bind fun st =>
  (repeatBlock param st).bind fun st =>
  (checkBlock ["seed"] CheckSeedParam ". Default: Random, Range: 0-4294967295" param st).bind fun st =>
  (checkBlock ["stop"] CheckStopParam ". Default: 100, Range: 10-100" param st).bind fun st =>
  (checkBlock ["stylize", "s"] CheckStylizeParam ". Default: 100, Range: 0-1000" param st).bind fun st =>
  (srefBlock param after st).bind fun st =>
  (checkBlock ["sw"] CheckStyleReferenceWeightParam ". Default: 100, Range: 0-1000" param st).bind fun st =>
  (checkBlock ["weird", "w"] CheckWeirdParam ". Default: 0, Range: 0-3000" param st).bind fun st =>
  checkBlock ["version", "v"] (fun v => (E.ParseFloat v).isSome) "" param st

/-- Body of the loop of `CheckPromptParam` for a registered parameter: `value` becomes
the next word when there is one, then the blocks run; `after` holds the words that
follow the parameter. -/
def paramBody (E : Env) (param : Str) (after : List Str) (st : ScanState) :
    Except ScanExit ScanState :=
  paramChecks E param after
    (match after with
      | [] => st
      | v :: _ => { st with value := v })

/-- Loop `for index, subString := range words` of `CheckPromptParam`. -/
def scanWords (E : Env) : List Str → ScanState → Except ScanExit ScanState
  | [], st => .ok st
  | subString :: after, st =>
    if !HasPrefix subString "--" then scanWords E after st
    else
      let param := TrimPrefix subString "--"
      if !CheckParamLegal E param then
        .error (st.aspectRatio, ErrUnReconizedParam ++ ": --" ++ param)
      else
        match paramBody E param after st with
        | .error e => .error e
        | .ok st => scanWords E after st

/-- Returns the new prompt, the aspect ratio and the error. -/
def CheckPromptParam (E : Env) (prompt : Str) (words : List Str) : Str × Str × Option Str :=
  match CheckPermutation prompt with
  | some err => (prompt, [], some err)
  | none =>
    if !Contains prompt "--" then (prompt, [], none)
    else
      match CheckSpaces prompt with
      | some err => (prompt, [], some err)
      | none =>
        match scanWords E words ⟨[], [], []⟩ with
        | .error e => (prompt, e.1, some e.2)
        | .ok st => (RemoveUnsupportParams prompt st.unsupportParams, st.aspectRatio, none)

/-! ## File `prompt.go` -/

/-- Record `model.PromptCheckResult`, with the fields the package sets. -/
structure PromptCheckResult where
  Prompt : Str := []
  AspectRatio : Str := []
  ErrorMessage : Str := []
deriving DecidableEq

def CheckPrompt (E : Env) (prompt : Str) (allowEmpty checkBannedWords : Bool) (proxyUrl : Str) :
    PromptCheckResult :=
  let pre := PreprocessPrompt E prompt
  match CheckPromptStruct pre.1 allowEmpty with
  | some err => { ErrorMessage := err }
  | none =>
    match (if checkBannedWords then CheckPromptBannedWords E (Join pre.2.1 " ") else none) with
    | some err => { ErrorMessage := err }
    | none =>
      let r := CheckPromptParam E pre.1 pre.2.1
      let msg : Str := match r.2.2 with
        | some err => err
        | none => []
      let msg : Str := match CheckImageUrl E r.1 pre.2.2 proxyUrl with
        | some err => err
        | none => msg
      { Prompt := r.1, AspectRatio := r.2.1, ErrorMessage := msg }

/-! ## A sample environment -/

/-- The parameter names listed for the registry. -/
def sampleParams : List Str :=
  ["aspect", "ar", "chaos", "c", "iw", "quality", "q", "repeat", "r", "seed", "stop",
   "stylize", "s", "sref", "sw", "weird", "w", "version", "v"]

/-- An environment for evaluating the package on ASCII prompts without URLs. -/
def sampleEnv : Env where
  Params := sampleParams
  BannedWords := ["cat", "very bad word"]
  isSpace := fun _ => false
  isLetter := fun _ => false
  toLower := fun c => c
  ParseFloat := fun _ => none
  FindAllString := fun _ => []
  proxyParses := fun _ => true
  headStatus := fun _ _ => some 200

/-- The sample environment with a fixed answer of the URL extractor. -/
def urlEnv (urls : List Str) : Env := { sampleEnv with FindAllString := fun _ => urls }

/-! ## Notions used to state the properties -/

/-- The text after the last occurrence of `sep` in `s` (all of `s` when there is none). -/
def textAfterLast (s sep : Str) : Str :=
  match Index s.reverse sep.reverse with
  | none => s
  | some i => (s.reverse.take i).reverse

/-- The last piece of `s` when it is split on `sep`, left to right. -/
def lastPiece (s sep : Str) : Str := (Split s sep).getLastD []

/-- A style-reference URL whose weight suffix is not an integer. -/
def badWeight (u : Str) : Bool := Contains u "::" && (Atoi (lastPiece u "::")).isNone

/-- Message of `CheckPromptParam` when no URL follows `--sref`. -/
def srefNoUrl : Str :=
  "Invalid Param Value: --sref. At least one url is required after --sref"

/-- Message of `CheckPromptParam` when a relative weight is not an integer. -/
def srefBadWeight : Str :=
  "Invalid Param Value: --sref. Relative weights should be integers, such as: '--sref urlA::2 urlB::3 urlC::5'"

/-- `w` is a maximal run of letters of `s`. -/
def IsLetterRun (E : Env) (w s : Str) : Prop :=
  ∃ pre post, s = pre ++ w ++ post ∧ w ≠ [] ∧ (∀ c ∈ w, IsLetter E c = true) ∧
    (pre = [] ∨ ∃ pre' x, pre = pre' ++ [x] ∧ IsLetter E x = false) ∧
    (post = [] ∨ ∃ x post', post = x :: post' ∧ IsLetter E x = false)

/-- A banned term matches a text: as a phrase or as a whole word. -/
def BannedMatch (E : Env) (text t : Str) : Prop :=
  (' ' ∈ t ∧ t <:+: text) ∨ IsLetterRun E t text

/-- The test `CheckPromptBannedWords` applies to one banned term. -/
def bannedCond (prompt : Str) (words : List Str) (t : Str) : Bool :=
  (Contains t " " && Contains prompt t) || bannedWordLoop t words

/-- A part that starts with `http`. -/
def httpPart (p : Str) : Bool := HasPrefix p "http"

/-- A part the counting loops of `CheckImageUrlPosition` pass over: empty or a URL. -/
def blockPart (p : Str) : Bool := decide (p = []) || HasPrefix p "http"

/-- The leading block of parts: up to the first non-empty part not starting with `http`. -/
def frontBlock (parts : List Str) : List Str := parts.takeWhile blockPart

/-- The parts from the end of the leading block on. -/
def afterBlock (parts : List Str) : List Str := parts.dropWhile blockPart

/-- The parts between the leading block and the first `--sref` part after it. -/
def beforeSref (parts : List Str) : List Str :=
  (afterBlock parts).takeWhile (fun p => decide (p ≠ ("--sref" : Str)))

/-- The parts after the first `--sref` part found from the end of the leading block on. -/
def afterSref (parts : List Str) : List Str :=
  ((afterBlock parts).dropWhile (fun p => decide (p ≠ ("--sref" : Str)))).drop 1

/-- The run of parts immediately following that `--sref` part. -/
def srefRun (parts : List Str) : List Str := (afterSref parts).takeWhile blockPart

/-- The parts after that run. -/
def afterRun (parts : List Str) : List Str := (afterSref parts).dropWhile blockPart

/-- A removal pattern: starts with a space and ends with another code point. -/
def GoodPat (P : Str) : Prop := ∃ mid c, P = ' ' :: (mid ++ [c]) ∧ c ≠ ' '

/-- A string that ends with a code point other than a space. -/
def EndsNonSpace (v : Str) : Prop := ∃ v' c, v = v' ++ [c] ∧ c ≠ ' '

/-- Every removal pattern collected so far is well formed. -/
def PatsOK (st : ScanState) : Prop := ∀ P ∈ st.unsupportParams, GoodPat P

/-- A step of the scan: its messages are not empty and it keeps the patterns well formed. -/
def StepOK (st : ScanState) (r : Except ScanExit ScanState) : Prop :=
  match r with
  | .error e => e.2 ≠ []
  | .ok s => PatsOK st → PatsOK s

/-- Reading a string whose words are separated by single spaces; the flag tells whether
a word must start here (at the beginning and after a space). -/
def spaced : Bool → Str → Bool
  | b, [] => !b
  | b, c :: cs => if c = ' ' then !b && spaced true cs else spaced false cs

/-- A string made of words separated by single spaces, without other white space. -/
def Normalized (E : Env) (s : Str) : Prop :=
  (s = [] ∨ spaced true s = true) ∧ ∀ c ∈ s, IsSpace E c = true → c = ' '

/-- The text of `s` before the first occurrence of `sep` (all of `s` when there is none). -/
def beforeFirst (s sep : Str) : Str :=
  match Index s sep with
  | none => s
  | some i => s.take i

/-- The file extensions accepted for an image URL. -/
def imageExtensions : List Str := [".jpg", ".jpeg", ".png", ".gif", ".webp"]

/-- The string ends in one of the accepted extensions. -/
def HasImageExtension (s : Str) : Prop := ∃ ext ∈ imageExtensions, ext <:+ s

/-- Message of `CheckImageUrlValid` for a URL with another extension. -/
def contentTypeError (url : Str) : Str := ErrInvalidImageContentType ++ (" url: " : Str) ++ url

/-- The extension test of `CheckImageUrlValid` on a stripped URL. -/
def extensionOk (url : Str) : Bool :=
  HasSuffix url ".jpg" || HasSuffix url ".jpeg" || HasSuffix url ".png"
    || HasSuffix url ".gif" || HasSuffix url ".webp"

/-- A decimal digit. -/
def IsDigit (c : Char) : Prop := 48 ≤ c.toNat ∧ c.toNat ≤ 57

/-- The number a string of decimal digits denotes. -/
def decimalValue (ds : Str) : Nat := ds.foldl (fun acc c => acc * 10 + (c.toNat - 48)) 0

/-- The string is a decimal integer, with an optional sign, and denotes `n`. -/
def DenotesInt (s : Str) (n : Int) : Prop :=
  ∃ ds : Str, ds ≠ [] ∧ (∀ c ∈ ds, IsDigit c) ∧
    (((s = ds ∨ s = '+' :: ds) ∧ n = (decimalValue ds : Int)) ∨
      (s = '-' :: ds ∧ n = -(decimalValue ds : Int)))

/-- Left-to-right scan for `--`: the positions of the occurrences found, each search
starting right after the previous occurrence; `k` counts the code points still to be
skipped and `p` is the position of the head of the string. -/
def dashScan : Nat → Nat → Str → List Nat
  | _, _, [] => []
  | k + 1, p, _ :: cs => dashScan k (p + 1) cs
  | 0, p, c :: cs =>
    if HasPrefix (c :: cs) "--" then p :: dashScan 1 (p + 1) cs else dashScan 0 (p + 1) cs

/-- The positions of the occurrences of `--` that the scan of `CheckSpaces` finds. -/
def dashOccurrences (s : Str) : List Nat := dashScan 0 0 s

/-- The occurrence of `--` at position `p` directly follows a space and is not directly
followed by one. -/
def SpacedDash (s : Str) (p : Nat) : Prop :=
  p ≠ 0 ∧ s[p - 1]? = some ' ' ∧ s[p + 2]? ≠ some ' '

/-- The sample environment with a float parser that knows `nan`, `inf` and a few numbers. -/
def floatEnv : Env :=
  { sampleEnv with
    ParseFloat := fun s =>
      if s = ("nan" : Str) then some .nan
      else if s = ("inf" : Str) then some .posInf
      else if s = ("0" : Str) then some (.finite 0)
      else if s = ("2" : Str) then some (.finite 2)
      else if s = ("2.5" : Str) then some (.finite (5 / 2))
      else none }

/-! ## Lemmas on the library functions -/

theorem length_le_len (s : Str) : s.length ≤ len s := by
  induction s with
  | nil => simp [len]
  | cons c cs ih =>
    have := Char.utf8Size_pos c
    simp [len] at ih ⊢
    omega

theorem dropWhile_append_stop (p : Char → Bool) (xs ys : Str) (b : Char) (hb : p b = false) :
    (xs ++ b :: ys).dropWhile p = xs.dropWhile p ++ b :: ys := by
  induction xs with
  | nil => simp [List.dropWhile, hb]
  | cons x xs ih =>
    by_cases hx : p x = true
    · simp [List.dropWhile, hx, ih]
    · simp [List.dropWhile, hx]

theorem Trim_leading (a b : Char) (t cutset : Str) (ha : cutset.contains a = false)
    (hb : cutset.contains b = false) : ∃ t', Trim (a :: b :: t) cutset = a :: b :: t' := by
  unfold Trim
  have h1 : (a :: b :: t).dropWhile (fun c => cutset.contains c) = a :: b :: t := by
    simp only [List.dropWhile, ha]
  rw [h1]
  have h2 : (a :: b :: t).reverse = t.reverse ++ b :: [a] := by simp
  rw [h2, dropWhile_append_stop _ _ _ _ hb]
  exact ⟨(t.reverse.dropWhile fun c => cutset.contains c).reverse, by
    simp only [List.reverse_append, List.reverse_cons, List.reverse_nil, List.nil_append,
      List.cons_append, List.singleton_append]⟩

theorem fieldsGo_open (f : Char → Bool) (s cur : Str) (hc : cur ≠ []) :
    ∃ w ws, fieldsGo f cur s = (cur ++ w) :: ws := by
  induction s generalizing cur with
  | nil => exact ⟨[], [], by simp [fieldsGo, hc]⟩
  | cons c cs ih =>
    by_cases hf : f c = true
    · exact ⟨[], fieldsGo f [] cs, by simp [fieldsGo, hf, hc]⟩
    · obtain ⟨w, ws, h⟩ := ih (cur ++ [c]) (by simp)
      exact ⟨c :: w, ws, by simp [fieldsGo, hf, h]⟩

theorem Join_cons_append (a : Str) (ws : List Str) (sep : Str) :
    ∃ t, Join (a :: ws) sep = a ++ t := by
  cases ws with
  | nil => exact ⟨[], by simp [Join]⟩
  | cons b rest => exact ⟨sep ++ Join (b :: rest) sep, by simp [Join]⟩

/-! ## Lemmas on the package functions -/

theorem CheckPromptStruct_of_leading (prompt : Str) (allowEmpty : Bool)
    (h : HasPrefix prompt "--" = true) :
    CheckPromptStruct prompt allowEmpty = some ErrPromptEmptyWithParams := by
  have hne : len prompt ≠ 0 := by
    have := length_le_len prompt
    cases prompt with
    | nil => exact absurd h (by decide)
    | cons c cs => simp at this; omega
  cases allowEmpty <;>
    simp [CheckPromptStruct, CheckPromptEmpty, CheckPromptEmptyWithParams, hne] <;> simp_all

theorem PreprocessPrompt_leading (E : Env) (rest : Str) :
    HasPrefix (PreprocessPrompt E ('-' :: '-' :: rest)).1 "--" = true := by
  have h1 : ReplaceAll ('-' :: '-' :: rest) "—" "--" = '-' :: '-' :: ReplaceAll rest "—" "--" := by
    simp [ReplaceAll, replaceGo, HasPrefix, List.isPrefixOf]
  obtain ⟨t', h2⟩ := Trim_leading '-' '-' (ReplaceAll rest "—" "--") " " (by decide) (by decide)
  have hsp : IsSpace E '-' = false := rfl
  have h3 : Fields E ('-' :: '-' :: t') = fieldsGo (IsSpace E) ['-', '-'] t' := by
    simp [Fields, FieldsFunc, fieldsGo, hsp]
  obtain ⟨w, ws, h4⟩ := fieldsGo_open (IsSpace E) t' ['-', '-'] (by simp)
  obtain ⟨t, h5⟩ := Join_cons_append (['-', '-'] ++ w) ws " "
  simp only [PreprocessPrompt, h1, h2, h3, h4, h5]
  simp [HasPrefix, List.isPrefixOf]

theorem CheckParamLegal_iff (E : Env) (p : Str) : CheckParamLegal E p = true ↔ p ∈ E.Params := by
  unfold CheckParamLegal
  induction E.Params with
  | nil => simp [paramLegalLoop]
  | cons a as ih =>
    simp only [paramLegalLoop, List.mem_cons]
    by_cases h : p = a
    · simp [h]
    · simp [h, ih]

theorem scanWords_skip (E : Env) (w : Str) (after : List Str) (st : ScanState)
    (h : HasPrefix w "--" = false) : scanWords E (w :: after) st = scanWords E after st := by
  simp only [scanWords, h]; rfl

theorem scanWords_illegal (E : Env) (w : Str) (after : List Str) (st : ScanState)
    (h : HasPrefix w "--" = true) (hl : CheckParamLegal E (TrimPrefix w "--") = false) :
    scanWords E (w :: after) st =
      .error (st.aspectRatio, ErrUnReconizedParam ++ (": --" : Str) ++ TrimPrefix w "--") := by
  simp only [scanWords, h, hl]; rfl

theorem scanWords_param (E : Env) (w : Str) (after : List Str) (st : ScanState)
    (h : HasPrefix w "--" = true) (hl : CheckParamLegal E (TrimPrefix w "--") = true) :
    scanWords E (w :: after) st =
      match paramBody E (TrimPrefix w "--") after st with
      | .error e => .error e
      | .ok st => scanWords E after st := by
  simp only [scanWords, h, hl]; rfl

/-- The scan of `sunset --ar 16:9`, for any environment that registers `ar`. -/
theorem CheckPromptParam_sunset (E : Env) (har : ("ar" : Str) ∈ E.Params) :
    CheckPromptParam E "sunset --ar 16:9" [("sunset" : Str), ("--ar" : Str), ("16:9" : Str)] =
      (("sunset" : Str), ("16:9" : Str), none) := by
  have hl : CheckParamLegal E (TrimPrefix "--ar" "--") = true := (CheckParamLegal_iff E _).2 har
  have h1 : CheckPermutation "sunset --ar 16:9" = none := by decide
  have h2 : (!Contains "sunset --ar 16:9" "--") = false := by decide
  have h3 : CheckSpaces "sunset --ar 16:9" = none := by decide
  have h8 : ∀ st, paramBody E (TrimPrefix "--ar" "--") [("16:9" : Str)] st =
      .ok ⟨"16:9", "16:9", st.unsupportParams ++ [(" --ar 16:9" : Str)]⟩ := fun st => rfl
  have hscan : scanWords E [("sunset" : Str), ("--ar" : Str), ("16:9" : Str)] ⟨[], [], []⟩ =
      .ok ⟨"16:9", "16:9", [(" --ar 16:9" : Str)]⟩ := by
    rw [scanWords_skip E _ _ _ (by decide), scanWords_param E _ _ _ (by decide) hl, h8]
    show scanWords E [("16:9" : Str)] _ = _
    rw [scanWords_skip E _ _ _ (by decide)]
    rfl
  unfold CheckPromptParam
  rw [h1]; dsimp only
  rw [h2, hscan, h3]
  decide

/-- The scan of `cat --AR 16:9`, for any environment that registers `ar`. -/
theorem CheckPromptParam_upper (E : Env) (har : ("ar" : Str) ∈ E.Params) :
    CheckPromptParam E "cat --AR 16:9" [("cat" : Str), ("--ar" : Str), ("16:9" : Str)] =
      (("cat --AR 16:9" : Str), ("16:9" : Str), none) := by
  have hl : CheckParamLegal E (TrimPrefix "--ar" "--") = true := (CheckParamLegal_iff E _).2 har
  have h1 : CheckPermutation "cat --AR 16:9" = none := by decide
  have h2 : (!Contains "cat --AR 16:9" "--") = false := by decide
  have h3 : CheckSpaces "cat --AR 16:9" = none := by decide
  have h8 : ∀ st, paramBody E (TrimPrefix "--ar" "--") [("16:9" : Str)] st =
      .ok ⟨"16:9", "16:9", st.unsupportParams ++ [(" --ar 16:9" : Str)]⟩ := fun st => rfl
  have hscan : scanWords E [("cat" : Str), ("--ar" : Str), ("16:9" : Str)] ⟨[], [], []⟩ =
      .ok ⟨"16:9", "16:9", [(" --ar 16:9" : Str)]⟩ := by
    rw [scanWords_skip E _ _ _ (by decide), scanWords_param E _ _ _ (by decide) hl, h8]
    show scanWords E [("16:9" : Str)] _ = _
    rw [scanWords_skip E _ _ _ (by decide)]
    rfl
  unfold CheckPromptParam
  rw [h1]; dsimp only
  rw [h2, hscan, h3]
  decide

/-! ## The aggregator (`CheckPrompt`) -/

/-- C1: for a prompt that passes the structural check (and the banned-word check when it
is enabled), when `CheckPromptParam` and `CheckImageUrl` both return an error the
`ErrorMessage` of `CheckPrompt` is exactly the `CheckImageUrl` error, and when only
`CheckPromptParam` fails it is the parameter error; the result carries that one message. -/
theorem CheckPrompt_error_priority (E : Env) (p : Str) (allowEmpty cbw : Bool) (proxyUrl : Str)
    (hs : CheckPromptStruct (PreprocessPrompt E p).1 allowEmpty = none)
    (hb : cbw = true → CheckPromptBannedWords E (Join (PreprocessPrompt E p).2.1 " ") = none) :
    (∀ perr ierr,
        (CheckPromptParam E (PreprocessPrompt E p).1 (PreprocessPrompt E p).2.1).2.2 = some perr →
        CheckImageUrl E (CheckPromptParam E (PreprocessPrompt E p).1 (PreprocessPrompt E p).2.1).1
          (PreprocessPrompt E p).2.2 proxyUrl = some ierr →
        (CheckPrompt E p allowEmpty cbw proxyUrl).ErrorMessage = ierr) ∧
    (∀ perr,
        (CheckPromptParam E (PreprocessPrompt E p).1 (PreprocessPrompt E p).2.1).2.2 = some perr →
        CheckImageUrl E (CheckPromptParam E (PreprocessPrompt E p).1 (PreprocessPrompt E p).2.1).1
          (PreprocessPrompt E p).2.2 proxyUrl = none →
        (CheckPrompt E p allowEmpty cbw proxyUrl).ErrorMessage = perr) := by
  have hb' : (if cbw = true then
      CheckPromptBannedWords E (Join (PreprocessPrompt E p).2.1 " ") else none) = none := by
    cases cbw <;> simp_all
  constructor
  · intro perr ierr h1 h2
    simp only [CheckPrompt, hs, hb', h1, h2]
  · intro perr h1 h2
    simp only [CheckPrompt, hs, hb', h1, h2]

/-- C1, on two prompts: `city --bad https://a.com/x.png` fails both checks and reports the
image position error; `city --bad 5` fails the parameter check only and reports it. -/
theorem CheckPrompt_error_priority_witness :
    (CheckPrompt (urlEnv ["https://a.com/x.png"]) "city --bad https://a.com/x.png"
        false false "").ErrorMessage = ErrInvalidImagePromptPosition ∧
    (CheckPrompt sampleEnv "city --bad 5" false false "").ErrorMessage
      = ("Unrecognized Param: --bad" : Str) :=
  ⟨(CheckPrompt_error_priority (urlEnv ["https://a.com/x.png"])
      "city --bad https://a.com/x.png" false false "" (by decide) (by decide)).1
      ("Unrecognized Param: --bad" : Str) ErrInvalidImagePromptPosition (by decide) (by decide),
   (CheckPrompt_error_priority sampleEnv "city --bad 5" false false "" (by decide)
      (by decide)).2 ("Unrecognized Param: --bad" : Str) (by decide) (by decide)⟩

/-- C2 as stated fails: on `--ar 16:9 sunset` the pipeline does not succeed with prompt
`sunset` and aspect ratio `16:9`; it reports `PromptEmptyWithParams` and returns
neither a prompt nor an aspect ratio. -/
theorem CheckPrompt_leading_ar_counterexample :
    CheckPrompt sampleEnv "--ar 16:9 sunset" false true ""
      = { ErrorMessage := ErrPromptEmptyWithParams } ∧
    CheckPrompt sampleEnv "--ar 16:9 sunset" true true ""
      = { ErrorMessage := ErrPromptEmptyWithParams } ∧
    ¬ ((CheckPrompt sampleEnv "--ar 16:9 sunset" false true "").ErrorMessage = [] ∧
       (CheckPrompt sampleEnv "--ar 16:9 sunset" false true "").Prompt = ("sunset" : Str) ∧
       (CheckPrompt sampleEnv "--ar 16:9 sunset" false true "").AspectRatio = ("16:9" : Str)) := by
  decide

/-- C2, amended: every prompt that starts with `--`, so every prompt of the form
`--ar W:H <word>`, fails with `PromptEmptyWithParams` and empty prompt and aspect ratio
fields, whatever the flags and the proxy; the pair is stripped and reported when it
follows the text: `sunset --ar 16:9` returns prompt `sunset` and aspect ratio `16:9`
when `ar` is registered, no URL is found and no banned word matches. -/
theorem CheckPrompt_leading_param (E : Env) (allowEmpty cbw : Bool) (proxyUrl : Str) :
    (∀ rest : Str, CheckPrompt E (("--" : Str) ++ rest) allowEmpty cbw proxyUrl =
      { ErrorMessage := ErrPromptEmptyWithParams }) ∧
    (∀ W H word : Str,
      CheckPrompt E (("--ar " : Str) ++ W ++ (":" : Str) ++ H ++ (" " : Str) ++ word)
        allowEmpty cbw proxyUrl = { ErrorMessage := ErrPromptEmptyWithParams }) ∧
    (("ar" : Str) ∈ E.Params → E.FindAllString "sunset --ar 16:9" = [] →
      (cbw = true → CheckPromptBannedWords E "sunset --ar 16:9" = none) →
      CheckPrompt E "sunset --ar 16:9" allowEmpty cbw proxyUrl = ⟨"sunset", "16:9", ""⟩) := by
  have key : ∀ rest : Str, CheckPrompt E ('-' :: '-' :: rest) allowEmpty cbw proxyUrl =
      { ErrorMessage := ErrPromptEmptyWithParams } := by
    intro rest
    have h := CheckPromptStruct_of_leading _ allowEmpty (PreprocessPrompt_leading E rest)
    simp only [CheckPrompt, h]
  refine ⟨fun rest => key rest, fun W H word => ?_, fun har hurl hb => ?_⟩
  · exact key (("ar " : Str) ++ W ++ (":" : Str) ++ H ++ (" " : Str) ++ word)
  · have hpre : PreprocessPrompt E "sunset --ar 16:9" =
        (("sunset --ar 16:9" : Str), [("sunset" : Str), ("--ar" : Str), ("16:9" : Str)],
          E.FindAllString "sunset --ar 16:9") := rfl
    have hs : CheckPromptStruct "sunset --ar 16:9" allowEmpty = none := by
      cases allowEmpty <;> decide
    have hj : Join [("sunset" : Str), ("--ar" : Str), ("16:9" : Str)] " "
        = ("sunset --ar 16:9" : Str) := by decide
    have hb' : (if cbw = true then CheckPromptBannedWords E
        (Join [("sunset" : Str), ("--ar" : Str), ("16:9" : Str)] " ") else none) = none := by
      rw [hj]; cases cbw <;> simp_all
    simp only [CheckPrompt, hpre, hs, hb', CheckPromptParam_sunset E har, hurl]
    rfl

/-- C2, amended, on the sample environment with the banned-word check enabled. -/
theorem CheckPrompt_leading_param_witness :
    CheckPrompt sampleEnv "sunset --ar 16:9" false true "" = ⟨"sunset", "16:9", ""⟩ :=
  (CheckPrompt_leading_param sampleEnv false true "").2.2 (by decide) (by decide)
    (fun _ => by decide)

/-- C3, failing input: on the raw prompt `cat --AR 16:9` the preprocessing and the
parameter check succeed with aspect ratio `16:9`, and the returned prompt is still
`cat --AR 16:9`: the pair built from the lowered words, ` --ar 16:9`, does not occur in
the case-preserved prompt, so nothing is removed. -/
theorem CheckPromptParam_uppercase_pair_kept (E : Env) (har : ("ar" : Str) ∈ E.Params) :
    CheckPromptParam E (PreprocessPrompt E "cat --AR 16:9").1
        (PreprocessPrompt E "cat --AR 16:9").2.1
      = (("cat --AR 16:9" : Str), ("16:9" : Str), none) ∧
    Contains (CheckPromptParam E (PreprocessPrompt E "cat --AR 16:9").1
        (PreprocessPrompt E "cat --AR 16:9").2.1).1 "--AR 16:9" = true := by
  have hpre : PreprocessPrompt E "cat --AR 16:9" =
      (("cat --AR 16:9" : Str), [("cat" : Str), ("--ar" : Str), ("16:9" : Str)],
        E.FindAllString "cat --AR 16:9") := rfl
  rw [hpre]
  simp only [CheckPromptParam_upper E har]
  exact ⟨trivial, by decide⟩

/-- C3, failing input, on the sample environment. -/
theorem CheckPromptParam_uppercase_pair_kept_witness :
    (CheckPromptParam sampleEnv (PreprocessPrompt sampleEnv "cat --AR 16:9").1
        (PreprocessPrompt sampleEnv "cat --AR 16:9").2.1).1 = ("cat --AR 16:9" : Str) :=
  congrArg Prod.fst (CheckPromptParam_uppercase_pair_kept sampleEnv (by decide)).1

/-! ## The structural validator (`CheckPromptStruct`) -/

/-- C4 as stated fails: a prompt of 6002 characters that begins with `--` is not
rejected with `PromptTooLong` (it is rejected with `PromptEmptyWithParams`). -/
theorem CheckPromptStruct_too_long_counterexample :
    6000 < ((("--" : Str) ++ List.replicate 6000 'a')).length ∧
    CheckPromptStruct ((("--" : Str) ++ List.replicate 6000 'a')) true
      ≠ some ErrPromptTooLong := by
  refine ⟨by rw [List.length_append, List.length_replicate]; decide, ?_⟩
  rw [CheckPromptStruct_of_leading _ true (by decide)]
  decide

/-- C4, amended: every prompt longer than 6000 characters is rejected, for either value
of `allowEmpty`: with `PromptEmptyWithParams` when it begins with `--`, and with
`PromptTooLong` otherwise. -/
theorem CheckPromptStruct_too_long (prompt : Str) (allowEmpty : Bool)
    (hlen : 6000 < prompt.length) :
    CheckPromptStruct prompt allowEmpty =
      some (if HasPrefix prompt "--" then ErrPromptEmptyWithParams else ErrPromptTooLong) := by
  by_cases h : HasPrefix prompt "--" = true
  · rw [CheckPromptStruct_of_leading prompt allowEmpty h, if_pos h]
  · have hl : 6000 < len prompt := lt_of_lt_of_le hlen (length_le_len prompt)
    have hne : len prompt ≠ 0 := by omega
    rw [if_neg h]
    cases allowEmpty <;>
      simp [CheckPromptStruct, CheckPromptEmpty, CheckPromptEmptyWithParams,
        CheckPromptLength, hne, hl] <;> simp_all

/-- C4, amended, on a prompt of 6001 letters `a`. -/
theorem CheckPromptStruct_too_long_witness :
    CheckPromptStruct (List.replicate 6001 'a') false =
      some (if HasPrefix (List.replicate 6001 'a') "--" then ErrPromptEmptyWithParams
        else ErrPromptTooLong) :=
  CheckPromptStruct_too_long _ false (by rw [List.length_replicate]; omega)

/-! ## The parameter validator (`CheckPromptParam`) -/

theorem scanWords_skip_all (E : Env) (pre rest : List Str) (st : ScanState)
    (hpre : ∀ w ∈ pre, HasPrefix w "--" = false) :
    scanWords E (pre ++ rest) st = scanWords E rest st := by
  induction pre with
  | nil => rfl
  | cons w ws ih =>
    rw [List.cons_append, scanWords_skip E w _ st (hpre w (List.mem_cons_self _ _))]
    exact ih (fun x hx => hpre x (List.mem_cons_of_mem _ hx))

theorem scanWords_no_param (E : Env) (ws : List Str) (st : ScanState)
    (h : ∀ w ∈ ws, HasPrefix w "--" = false) : scanWords E ws st = .ok st := by
  have := scanWords_skip_all E ws [] st h
  rwa [List.append_nil] at this

theorem HasPrefix_append (a b : Str) : HasPrefix (a ++ b) a = true := by
  simp [HasPrefix]

theorem TrimPrefix_append (a b : Str) : TrimPrefix (a ++ b) a = b := by
  simp [TrimPrefix, HasPrefix_append]

/-- C5: for a prompt without braces that reaches the token scan (it contains `--` and
passes the spacing guard), if the first `--`-prefixed token of the lowered token list
has a name that is not in the parameter registry, `CheckPromptParam` fails with
`Unrecognized Param: --<name>` and returns the prompt unchanged, with no aspect ratio. -/
theorem CheckPromptParam_unrecognized (E : Env) (prompt : Str) (pre post : List Str)
    (name : Str)
    (hperm : CheckPermutation prompt = none)
    (hdash : Contains prompt "--" = true)
    (hsp : CheckSpaces prompt = none)
    (hpre : ∀ w ∈ pre, HasPrefix w "--" = false)
    (hreg : name ∉ E.Params) :
    CheckPromptParam E prompt (pre ++ (("--" : Str) ++ name) :: post) =
      (prompt, [], some (("Unrecognized Param: --" : Str) ++ name)) := by
  have hl : CheckParamLegal E (TrimPrefix (("--" : Str) ++ name) "--") = false := by
    rw [TrimPrefix_append]
    cases h : CheckParamLegal E name with
    | false => rfl
    | true => exact absurd ((CheckParamLegal_iff E name).1 h) hreg
  have hscan := scanWords_illegal E (("--" : Str) ++ name) post ⟨[], [], []⟩
    (HasPrefix_append _ _) hl
  rw [TrimPrefix_append] at hscan
  unfold CheckPromptParam
  rw [hperm]; dsimp only
  rw [hdash, hsp, scanWords_skip_all E pre _ _ hpre, hscan]
  rfl

/-- C5, on the prompt `cat --nonexistent 5` and its lowered words: the check fails
naming `nonexistent`. -/
theorem CheckPromptParam_unrecognized_witness :
    CheckPromptParam sampleEnv (PreprocessPrompt sampleEnv "cat --nonexistent 5").1
        (PreprocessPrompt sampleEnv "cat --nonexistent 5").2.1 =
      (("cat --nonexistent 5" : Str), [], some ("Unrecognized Param: --nonexistent" : Str)) :=
  CheckPromptParam_unrecognized sampleEnv "cat --nonexistent 5" [("cat" : Str)]
    [("5" : Str)] "nonexistent" (by decide) (by decide) (by decide) (by decide) (by decide)

theorem getD_last (l : List Str) : l.getD (l.length - 1) [] = l.getLastD [] := by
  induction l with
  | nil => rfl
  | cons a t ih =>
    cases t with
    | nil => rfl
    | cons b t' =>
      simp only [List.length_cons, List.getLastD_cons] at ih ⊢
      simpa using ih

theorem relativeWeight_eq (urls : List Str) :
    CheckStyleReferenceRelativeWeightParam urls = !urls.any badWeight := by
  induction urls with
  | nil => rfl
  | cons u us ih =>
    simp only [CheckStyleReferenceRelativeWeightParam, List.any_cons, badWeight, lastPiece,
      getD_last, ih]
    cases Contains u "::" <;> cases (Atoi ((Split u "::").getLastD [])).isNone <;> simp

theorem srefUrls_fst (after : List Str) (value : Str) (urls : List Str) :
    (srefUrls after value urls).1 =
      urls ++ (value :: after).takeWhile (fun w => HasPrefix w "http") := by
  induction after generalizing value urls with
  | nil =>
    by_cases h : HasPrefix value "http" = true
    · simp only [srefUrls, h, if_true, List.takeWhile_cons_of_pos, List.takeWhile_nil]
    · simp only [srefUrls, h, if_false, List.takeWhile_cons_of_neg, List.append_nil,
        Bool.false_eq_true, not_false_eq_true]
  | cons w ws ih =>
    by_cases h : HasPrefix value "http" = true
    · simp only [srefUrls, h, if_true, ih, List.takeWhile_cons_of_pos, List.append_assoc,
        List.singleton_append]
    · simp only [srefUrls, h, if_false, List.takeWhile_cons_of_neg, List.append_nil,
        Bool.false_eq_true, not_false_eq_true]

theorem paramBody_sref (E : Env) (after : List Str) (st : ScanState) :
    paramBody E "sref" after st =
      (srefBlock "sref" after
        (match after with
          | [] => st
          | v :: _ => { st with value := v })) := by
  have h : paramBody E "sref" after st =
      (srefBlock "sref" after
        (match after with
          | [] => st
          | v :: _ => { st with value := v })).bind .ok := rfl
  rw [h]
  cases srefBlock ("sref" : Str) after _ <;> rfl

/-- C6 as stated fails: in `city --sref http://a.com/x.png:::5` the run after `--sref` is
not empty and the text after the last `::` of its only token is `5`, an integer, yet
`CheckPromptParam` fails with the relative-weight message: `strings.Split` cuts at the
first two of the three colons and leaves `:5` as the weight. -/
theorem CheckPromptParam_sref_counterexample :
    (CheckPromptParam sampleEnv
      (PreprocessPrompt sampleEnv "city --sref http://a.com/x.png:::5").1
      (PreprocessPrompt sampleEnv "city --sref http://a.com/x.png:::5").2.1).2.2
      = some srefBadWeight ∧
    ¬ ([("http://a.com/x.png:::5" : Str)].takeWhile (fun w => HasPrefix w "http") = [] ∨
       ∃ u ∈ [("http://a.com/x.png:::5" : Str)].takeWhile (fun w => HasPrefix w "http"),
        Contains u "::" = true ∧ Atoi (textAfterLast u "::") = none) := by
  decide

/-- C6, amended: when `--sref` is the only parameter of the lowered token list (and it
is registered, and the prompt reaches the token scan), let the run be the maximal
sequence of tokens right after `--sref` that start with `http`. `CheckPromptParam`
fails with `InvalidParamValue` iff the run is empty, or some token of the run contains
`::` and its last piece, when the token is split on `::` from left to right, does not
parse as an integer; otherwise it succeeds and returns the prompt unchanged, with no
aspect ratio. -/
theorem CheckPromptParam_sref_only (E : Env) (prompt : Str) (pre post : List Str)
    (hperm : CheckPermutation prompt = none)
    (hdash : Contains prompt "--" = true)
    (hsp : CheckSpaces prompt = none)
    (hreg : ("sref" : Str) ∈ E.Params)
    (hpre : ∀ w ∈ pre, HasPrefix w "--" = false)
    (hpost : ∀ w ∈ post, HasPrefix w "--" = false) :
    CheckPromptParam E prompt (pre ++ ("--sref" : Str) :: post) =
      (prompt, [],
        if post.takeWhile (fun w => HasPrefix w "http") = [] then some srefNoUrl
        else if (post.takeWhile (fun w => HasPrefix w "http")).any badWeight then
          some srefBadWeight
        else none) := by
  have hl : CheckParamLegal E (TrimPrefix ("--sref" : Str) "--") = true :=
    (CheckParamLegal_iff E _).2 hreg
  have hbody : paramBody E (TrimPrefix ("--sref" : Str) "--") post ⟨[], [], []⟩ =
      paramBody E "sref" post ⟨[], [], []⟩ := rfl
  unfold CheckPromptParam
  rw [hperm]; dsimp only
  rw [hdash, hsp, scanWords_skip_all E pre _ _ hpre,
    scanWords_param E _ post _ (by decide) hl, hbody, paramBody_sref]
  have hrun : (srefUrls (post.drop 1)
      (match post with
        | [] => (⟨[], [], []⟩ : ScanState)
        | v :: _ => { (⟨[], [], []⟩ : ScanState) with value := v }).value []).1
      = post.takeWhile (fun w => HasPrefix w "http") := by
    cases post with
    | nil => rfl
    | cons v vs => rw [srefUrls_fst]; rfl
  simp only [srefBlock, if_true, hrun, relativeWeight_eq, List.length_eq_zero]
  by_cases h1 : post.takeWhile (fun w => HasPrefix w "http") = []
  · simp only [h1, if_true]; cases post <;> rfl
  · simp only [h1, if_false]
    by_cases h2 : (post.takeWhile (fun w => HasPrefix w "http")).any badWeight = true
    · simp only [h2, Bool.not_true, Bool.not_false, if_true]; cases post <;> rfl
    · simp only [Bool.not_eq_true] at h2
      simp only [h2, Bool.not_false, Bool.not_true, Bool.false_eq_true, if_false,
        scanWords_no_param E post _ hpost]
      cases post <;> rfl

/-- C6, amended, on the two prompts of the claim: with the weights `::2` and `::3` the
check succeeds and the prompt is unchanged; with `::abc` it fails. -/
theorem CheckPromptParam_sref_only_witness :
    CheckPromptParam sampleEnv "city --sref https://a.com/x.png::2 https://b.com/y.jpg::3"
        (PreprocessPrompt sampleEnv
          "city --sref https://a.com/x.png::2 https://b.com/y.jpg::3").2.1 =
      (("city --sref https://a.com/x.png::2 https://b.com/y.jpg::3" : Str), [], none) ∧
    CheckPromptParam sampleEnv "city --sref https://a.com/x.png::abc https://b.com/y.jpg::3"
        (PreprocessPrompt sampleEnv
          "city --sref https://a.com/x.png::abc https://b.com/y.jpg::3").2.1 =
      (("city --sref https://a.com/x.png::abc https://b.com/y.jpg::3" : Str), [],
        some srefBadWeight) :=
  ⟨CheckPromptParam_sref_only sampleEnv
      "city --sref https://a.com/x.png::2 https://b.com/y.jpg::3" [("city" : Str)]
      [("https://a.com/x.png::2" : Str), ("https://b.com/y.jpg::3" : Str)]
      (by decide) (by decide) (by decide) (by decide) (by decide) (by decide),
   CheckPromptParam_sref_only sampleEnv
      "city --sref https://a.com/x.png::abc https://b.com/y.jpg::3" [("city" : Str)]
      [("https://a.com/x.png::abc" : Str), ("https://b.com/y.jpg::3" : Str)]
      (by decide) (by decide) (by decide) (by decide) (by decide) (by decide)⟩

/-! ## The banned-content filter (`CheckPromptBannedWords`) -/

theorem HasPrefix_iff (s p : Str) : HasPrefix s p = true ↔ p <+: s := by
  unfold HasPrefix
  exact List.isPrefixOf_iff_prefix

theorem Index_isSome_iff (s sub : Str) : (Index s sub).isSome = true ↔ sub <:+: s := by
  induction s with
  | nil =>
    by_cases h : sub = []
    · simp [Index, h]
    · simp [Index, h]
  | cons c cs ih =>
    rw [List.infix_cons_iff, ← ih, ← HasPrefix_iff]
    by_cases h : HasPrefix (c :: cs) sub = true
    · simp [Index, h]
    · simp [Index, h]

theorem Contains_iff (s sub : Str) : Contains s sub = true ↔ sub <:+: s :=
  Index_isSome_iff s sub

theorem Contains_space_iff (t : Str) : Contains t " " = true ↔ ' ' ∈ t := by
  rw [Contains_iff]
  show [' '] <:+: t ↔ _
  constructor
  · rintro ⟨a, b, h⟩
    rw [← h]; simp
  · intro h
    obtain ⟨a, b, h⟩ := List.append_of_mem h
    exact ⟨a, b, by rw [h]; simp⟩

theorem bannedWordLoop_iff (b : Str) (words : List Str) :
    bannedWordLoop b words = true ↔ b ∈ words := by
  induction words with
  | nil => simp [bannedWordLoop]
  | cons w ws ih =>
    by_cases h : w = b
    · simp [bannedWordLoop, h]
    · have h' : ¬ b = w := fun e => h e.symm
      simp [bannedWordLoop, h, h', ih]

theorem fieldsGo_acc (f : Char → Bool) (cur s a : Str) (hc : ∀ c ∈ cur, f c = false) :
    fieldsGo f a (cur ++ s) = fieldsGo f (a ++ cur) s := by
  induction cur generalizing a with
  | nil => simp
  | cons c cs ih =>
    have hfc : f c = false := hc c (List.mem_cons_self _ _)
    rw [List.cons_append, fieldsGo]
    simp only [hfc, Bool.false_eq_true, if_false]
    rw [ih (a ++ [c]) (fun x hx => hc x (List.mem_cons_of_mem _ hx))]
    simp

theorem fieldsGo_sep (f : Char → Bool) (x y cur : Str) (c : Char) (hf : f c = true) :
    fieldsGo f cur (x ++ c :: y) = fieldsGo f cur x ++ fieldsGo f [] y := by
  induction x generalizing cur with
  | nil =>
    by_cases hcur : cur = []
    · simp [fieldsGo, hf, hcur]
    · simp [fieldsGo, hf, hcur]
  | cons a x ih =>
    by_cases ha : f a = true
    · by_cases hcur : cur = []
      · simp [fieldsGo, ha, hcur, ih]
      · simp [fieldsGo, ha, hcur, ih]
    · simp [fieldsGo, ha, ih]

theorem fieldsGo_run (f : Char → Bool) (w post : Str) (hw : w ≠ [])
    (hall : ∀ c ∈ w, f c = false)
    (hpost : post = [] ∨ ∃ x post', post = x :: post' ∧ f x = true) :
    w ∈ fieldsGo f [] (w ++ post) := by
  rw [fieldsGo_acc f w post [] hall, List.nil_append]
  rcases hpost with rfl | ⟨x, post', rfl, hx⟩
  · simp [fieldsGo, hw]
  · simp [fieldsGo, hw, hx]

theorem mem_fieldsGo (f : Char → Bool) (w s cur : Str) (hcur : ∀ c ∈ cur, f c = false)
    (h : w ∈ fieldsGo f cur s) :
    ∃ pre post, cur ++ s = pre ++ w ++ post ∧ w ≠ [] ∧ (∀ c ∈ w, f c = false) ∧
      (pre = [] ∨ ∃ pre' x, pre = pre' ++ [x] ∧ f x = true) ∧
      (post = [] ∨ ∃ x post', post = x :: post' ∧ f x = true) := by
  induction s generalizing cur with
  | nil =>
    by_cases hc : cur = []
    · simp [fieldsGo, hc] at h
    · simp only [fieldsGo, hc, if_false, List.mem_singleton] at h
      subst h
      exact ⟨[], [], by simp, hc, hcur, Or.inl rfl, Or.inl rfl⟩
  | cons c cs ih =>
    by_cases hf : f c = true
    · have step : w ∈ fieldsGo f [] cs →
          ∃ pre post, cur ++ c :: cs = pre ++ w ++ post ∧ w ≠ [] ∧ (∀ c ∈ w, f c = false) ∧
            (pre = [] ∨ ∃ pre' x, pre = pre' ++ [x] ∧ f x = true) ∧
            (post = [] ∨ ∃ x post', post = x :: post' ∧ f x = true) := by
        intro h'
        obtain ⟨pre, post, e, hw, hall, hpre, hpost⟩ := ih [] (by simp) h'
        refine ⟨cur ++ c :: pre, post, ?_, hw, hall, Or.inr ?_, hpost⟩
        · simp only [List.nil_append] at e
          rw [e]; simp
        · rcases hpre with rfl | ⟨pre', x, rfl, hx⟩
          · exact ⟨cur, c, by simp, hf⟩
          · exact ⟨cur ++ c :: pre', x, by simp, hx⟩
      by_cases hc : cur = []
      · simp only [fieldsGo, hf, hc, if_true] at h
        exact step h
      · simp only [fieldsGo, hf, hc, if_true, if_false, List.mem_cons] at h
        rcases h with rfl | h
        · exact ⟨[], c :: cs, by simp, hc, hcur, Or.inl rfl, Or.inr ⟨c, cs, rfl, hf⟩⟩
        · exact step h
    · simp only [fieldsGo, hf, if_false] at h
      have hf' : f c = false := by simpa using hf
      obtain ⟨pre, post, e, hw, hall, hpre, hpost⟩ := ih (cur ++ [c]) (by
        intro x hx
        rcases List.mem_append.1 hx with hx | hx
        · exact hcur x hx
        · simp at hx; subst hx; exact hf') h
      exact ⟨pre, post, by rw [← e]; simp, hw, hall, hpre, hpost⟩

theorem mem_FieldsFunc_iff (f : Char → Bool) (w s : Str) :
    w ∈ FieldsFunc s f ↔
      ∃ pre post, s = pre ++ w ++ post ∧ w ≠ [] ∧ (∀ c ∈ w, f c = false) ∧
        (pre = [] ∨ ∃ pre' x, pre = pre' ++ [x] ∧ f x = true) ∧
        (post = [] ∨ ∃ x post', post = x :: post' ∧ f x = true) := by
  constructor
  · intro h
    have := mem_fieldsGo f w s [] (by simp) h
    simpa using this
  · rintro ⟨pre, post, rfl, hw, hall, hpre, hpost⟩
    unfold FieldsFunc
    rcases hpre with rfl | ⟨pre', x, rfl, hx⟩
    · simpa using fieldsGo_run f w post hw hall hpost
    · have : pre' ++ [x] ++ w ++ post = pre' ++ x :: (w ++ post) := by simp
      rw [this, fieldsGo_sep f pre' (w ++ post) [] x hx]
      exact List.mem_append_right _ (fieldsGo_run f w post hw hall hpost)

theorem mem_letterWords_iff (E : Env) (w s : Str) :
    w ∈ FieldsFunc s (fun r => !IsLetter E r) ↔ IsLetterRun E w s := by
  rw [mem_FieldsFunc_iff]
  simp only [IsLetterRun, Bool.not_eq_false', Bool.not_eq_true', Bool.not_eq_eq_eq_not, Bool.not_true, Bool.not_false]

theorem bannedLoop_cons (prompt : Str) (words : List Str) (t : Str) (rest : List Str) :
    bannedLoop prompt words (t :: rest) =
      if bannedCond prompt words t then some (("Banned Prompt: " : Str) ++ t)
      else bannedLoop prompt words rest := by
  unfold bannedCond
  rw [bannedLoop]
  cases (Contains t " " && Contains prompt t) <;> cases bannedWordLoop t words <;> rfl

theorem bannedLoop_first (prompt : Str) (words : List Str) (l1 l2 : List Str) (t : Str)
    (h1 : ∀ t' ∈ l1, bannedCond prompt words t' = false)
    (ht : bannedCond prompt words t = true) :
    bannedLoop prompt words (l1 ++ t :: l2) = some (("Banned Prompt: " : Str) ++ t) := by
  induction l1 with
  | nil => rw [List.nil_append, bannedLoop_cons, ht]; rfl
  | cons a l ih =>
    rw [List.cons_append, bannedLoop_cons, h1 a (List.mem_cons_self _ _)]
    exact ih (fun x hx => h1 x (List.mem_cons_of_mem _ hx))

theorem bannedLoop_none_iff (prompt : Str) (words : List Str) (terms : List Str) :
    bannedLoop prompt words terms = none ↔ ∀ t ∈ terms, bannedCond prompt words t = false := by
  induction terms with
  | nil => simp [bannedLoop]
  | cons a l ih =>
    rw [bannedLoop_cons]
    cases h : bannedCond prompt words a
    · simp [ih, h]
    · simp [h]

theorem bannedCond_iff (E : Env) (prompt t : Str) :
    bannedCond prompt (FieldsFunc prompt (fun r => !IsLetter E r)) t = true ↔
      BannedMatch E prompt t := by
  unfold bannedCond BannedMatch
  rw [Bool.or_eq_true, Bool.and_eq_true, Contains_space_iff, Contains_iff, bannedWordLoop_iff,
    mem_letterWords_iff]

theorem bannedLoop_some (prompt : Str) (words terms : List Str) (m : Str)
    (h : bannedLoop prompt words terms = some m) :
    ∃ t ∈ terms, bannedCond prompt words t = true ∧ m = ("Banned Prompt: " : Str) ++ t := by
  induction terms with
  | nil => simp [bannedLoop] at h
  | cons a l ih =>
    rw [bannedLoop_cons] at h
    cases hc : bannedCond prompt words a
    · rw [hc] at h
      obtain ⟨t, ht, hct, hm⟩ := ih h
      exact ⟨t, List.mem_cons_of_mem _ ht, hct, hm⟩
    · rw [hc] at h
      simp only [if_true, Option.some.injEq] at h
      exact ⟨a, List.mem_cons_self _ _, hc, h.symm⟩

/-- C7: `CheckPromptBannedWords` fails with `Banned Prompt: t` for the first term `t` of the
banned list, in list order, that either contains a space and is a substring of the text,
or equals one of the maximal runs of letters of the text; it succeeds iff no term does.
A space-free term that is not a whole letter run is never the reported term, and a
listed phrase that occurs as a substring always makes the check fail. -/
theorem CheckPromptBannedWords_first_match (E : Env) (text : Str) :
    (∀ l1 t l2, E.BannedWords = l1 ++ t :: l2 → (∀ t' ∈ l1, ¬ BannedMatch E text t') →
      BannedMatch E text t →
      CheckPromptBannedWords E text = some (("Banned Prompt: " : Str) ++ t)) ∧
    (CheckPromptBannedWords E text = none ↔ ∀ t ∈ E.BannedWords, ¬ BannedMatch E text t) ∧
    (∀ t, ' ' ∉ t → ¬ IsLetterRun E t text →
      CheckPromptBannedWords E text ≠ some (("Banned Prompt: " : Str) ++ t)) ∧
    (∀ t ∈ E.BannedWords, ' ' ∈ t → t <:+: text → CheckPromptBannedWords E text ≠ none) := by
  have hnone : CheckPromptBannedWords E text = none ↔
      ∀ t ∈ E.BannedWords, ¬ BannedMatch E text t := by
    unfold CheckPromptBannedWords
    rw [bannedLoop_none_iff]
    constructor
    · intro h t ht hm
      have := h t ht
      rw [(bannedCond_iff E text t).2 hm] at this
      exact absurd this (by decide)
    · intro h t ht
      have := h t ht
      rw [← bannedCond_iff] at this
      simpa using this
  refine ⟨?_, hnone, ?_, ?_⟩
  · intro l1 t l2 hl h1 ht
    unfold CheckPromptBannedWords
    rw [hl]
    apply bannedLoop_first
    · intro t' ht'
      have := h1 t' ht'
      rw [← bannedCond_iff] at this
      simpa using this
    · exact (bannedCond_iff E text t).2 ht
  · intro t hsp hrun h
    obtain ⟨t', _, hc, hm⟩ := bannedLoop_some _ _ _ _ h
    have ht : t = t' := List.append_cancel_left hm
    subst ht
    rcases (bannedCond_iff E text t).1 hc with ⟨h1, _⟩ | h2
    · exact hsp h1
    · exact hrun h2
  · intro t ht hsp hin h
    exact hnone.1 h t ht (Or.inl ⟨hsp, hin⟩)

/-- C7, on the text `a catastrophe, not a very bad word` with the banned terms `cat` and
`very bad word`: `cat` does not match inside `catastrophe`, the phrase matches. -/
theorem CheckPromptBannedWords_first_match_witness :
    CheckPromptBannedWords sampleEnv "a catastrophe, not a very bad word" =
      some ("Banned Prompt: very bad word" : Str) :=
  (CheckPromptBannedWords_first_match sampleEnv "a catastrophe, not a very bad word").1 [("cat" : Str)] "very bad word" []
    rfl
    (by
      intro t' ht'
      rw [← bannedCond_iff]
      simp only [List.mem_singleton] at ht'
      subst ht'
      decide)
    ((bannedCond_iff sampleEnv _ _).1 (by decide))

/-! ## The image reference validator (`CheckImageUrl`) -/

theorem frontLoop_eq (parts : List Str) (cnt : Int) :
    frontLoop parts cnt =
      (parts.dropWhile blockPart, cnt - ((parts.takeWhile blockPart).countP httpPart : Nat)) := by
  induction parts generalizing cnt with
  | nil => simp [frontLoop]
  | cons p ps ih =>
    by_cases h1 : p = []
    · subst h1
      have hb : blockPart [] = true := rfl
      have hh : httpPart [] = false := rfl
      rw [frontLoop, if_pos rfl, ih, List.dropWhile_cons_of_pos hb, List.takeWhile_cons_of_pos hb,
        List.countP_cons_of_neg]
      simp [hh]
    · by_cases h2 : HasPrefix p "http" = true
      · have hb : blockPart p = true := by simp only [blockPart, h2, Bool.or_true]
        have hh : httpPart p = true := h2
        rw [frontLoop, if_neg h1, h2, List.dropWhile_cons_of_pos hb,
          List.takeWhile_cons_of_pos hb, List.countP_cons_of_pos (p := httpPart) _ hh, ih]
        simp only [Bool.not_true, Bool.false_eq_true, if_false, Prod.mk.injEq, true_and]
        push_cast; ring
      · have h2' : HasPrefix p "http" = false := by simpa using h2
        have hb : ¬ blockPart p = true := by unfold blockPart; rw [h2']; simp [h1]
        rw [frontLoop, if_neg h1, h2', List.dropWhile_cons_of_neg hb,
          List.takeWhile_cons_of_neg hb]
        simp

theorem srefRunLoop_eq (parts : List Str) (cnt : Int) :
    srefRunLoop parts cnt = cnt - ((parts.takeWhile blockPart).countP httpPart : Nat) := by
  induction parts generalizing cnt with
  | nil => simp [srefRunLoop]
  | cons p ps ih =>
    by_cases h1 : p = []
    · subst h1
      have hb : blockPart [] = true := rfl
      have hh : httpPart [] = false := rfl
      rw [srefRunLoop, if_pos rfl, ih, List.takeWhile_cons_of_pos hb,
        List.countP_cons_of_neg]
      simp [hh]
    · by_cases h2 : HasPrefix p "http" = true
      · have hb : blockPart p = true := by simp only [blockPart, h2, Bool.or_true]
        have hh : httpPart p = true := h2
        rw [srefRunLoop, if_neg h1, h2,
          List.takeWhile_cons_of_pos hb, List.countP_cons_of_pos (p := httpPart) _ hh]
        simp only [Bool.not_true, Bool.false_eq_true, if_false]
        rw [ih]
        push_cast; ring
      · have h2' : HasPrefix p "http" = false := by simpa using h2
        have hb : ¬ blockPart p = true := by unfold blockPart; rw [h2']; simp [h1]
        rw [srefRunLoop, if_neg h1, h2', List.takeWhile_cons_of_neg hb]
        simp

theorem srefLoop_eq (parts : List Str) (cnt : Int) :
    srefLoop parts cnt =
      srefRunLoop ((parts.dropWhile (fun p => decide (p ≠ ("--sref" : Str)))).drop 1) cnt := by
  induction parts with
  | nil => simp [srefLoop, srefRunLoop]
  | cons p ps ih =>
    by_cases h : p = ("--sref" : Str)
    · rw [srefLoop, if_neg (by simpa using h), List.dropWhile_cons_of_neg (by simpa using h)]
      rfl
    · rw [srefLoop, if_pos h, ih, List.dropWhile_cons_of_pos (by simpa using h)]

theorem CheckImageUrlPosition_iff (parts urls : List Str) :
    CheckImageUrlPosition parts urls = none ↔
      urls.length = (frontBlock parts).countP httpPart + (srefRun parts).countP httpPart := by
  unfold CheckImageUrlPosition
  simp only [frontLoop_eq, srefLoop_eq, srefRunLoop_eq]
  unfold frontBlock srefRun afterSref afterBlock
  split
  · rename_i h
    simp only [false_iff, reduceCtorEq]
    omega
  · rename_i h
    simp only [true_iff]
    omega

theorem countP_parts (parts : List Str) :
    parts.countP httpPart =
      (frontBlock parts).countP httpPart + (beforeSref parts).countP httpPart
        + (srefRun parts).countP httpPart + (afterRun parts).countP httpPart := by
  have e1 : parts = frontBlock parts ++ afterBlock parts :=
    (List.takeWhile_append_dropWhile _ _).symm
  have e2 : afterBlock parts = beforeSref parts ++
      (afterBlock parts).dropWhile (fun p => decide (p ≠ ("--sref" : Str))) :=
    (List.takeWhile_append_dropWhile _ _).symm
  have e3 : ((afterBlock parts).dropWhile (fun p => decide (p ≠ ("--sref" : Str)))).countP httpPart
      = (afterSref parts).countP httpPart := by
    unfold afterSref
    cases h : (afterBlock parts).dropWhile (fun p => decide (p ≠ ("--sref" : Str))) with
    | nil => rfl
    | cons a l =>
      have := List.head_dropWhile_not (fun p => decide (p ≠ ("--sref" : Str))) (afterBlock parts)
        (by rw [h]; simp)
      simp only [h, List.head_cons] at this
      have ha : a = ("--sref" : Str) := by simpa using this
      subst ha
      rw [List.countP_cons_of_neg]
      · rfl
      · decide
  have e4 : afterSref parts = srefRun parts ++ afterRun parts :=
    (List.takeWhile_append_dropWhile _ _).symm
  conv_lhs => rw [e1, List.countP_append, e2, List.countP_append, e3, e4, List.countP_append]
  omega

theorem mem_parts (parts : List Str) (u : Str) (hu : u ∈ parts) :
    u ∈ frontBlock parts ∨ u ∈ beforeSref parts ∨ u = ("--sref" : Str) ∨ u ∈ srefRun parts
      ∨ u ∈ afterRun parts := by
  have e1 : parts = frontBlock parts ++ afterBlock parts :=
    (List.takeWhile_append_dropWhile _ _).symm
  have e2 : afterBlock parts = beforeSref parts ++
      (afterBlock parts).dropWhile (fun p => decide (p ≠ ("--sref" : Str))) :=
    (List.takeWhile_append_dropWhile _ _).symm
  have e4 : afterSref parts = srefRun parts ++ afterRun parts :=
    (List.takeWhile_append_dropWhile _ _).symm
  rw [e1, List.mem_append] at hu
  rcases hu with hu | hu
  · exact Or.inl hu
  · rw [e2, List.mem_append] at hu
    rcases hu with hu | hu
    · exact Or.inr (Or.inl hu)
    · have e3 : u = ("--sref" : Str) ∨ u ∈ afterSref parts := by
        unfold afterSref
        cases h : (afterBlock parts).dropWhile (fun p => decide (p ≠ ("--sref" : Str))) with
        | nil => rw [h] at hu; exact absurd hu (List.not_mem_nil _)
        | cons a l =>
          have := List.head_dropWhile_not (fun p => decide (p ≠ ("--sref" : Str)))
            (afterBlock parts) (by rw [h]; simp)
          simp only [h, List.head_cons] at this
          have ha : a = ("--sref" : Str) := by simpa using this
          rw [h] at hu
          rcases List.mem_cons.1 hu with hu | hu
          · exact Or.inl (hu.trans ha)
          · exact Or.inr hu
      rcases e3 with e3 | e3
      · exact Or.inr (Or.inr (Or.inl e3))
      · rw [e4, List.mem_append] at e3
        rcases e3 with e3 | e3
        · exact Or.inr (Or.inr (Or.inr (Or.inl e3)))
        · exact Or.inr (Or.inr (Or.inr (Or.inr e3)))

theorem CheckImageUrlPosition_err (parts urls : List Str)
    (h : CheckImageUrlPosition parts urls ≠ none) :
    CheckImageUrlPosition parts urls = some ErrInvalidImagePromptPosition := by
  unfold CheckImageUrlPosition at h ⊢
  dsimp only at h ⊢
  split
  · rfl
  · rename_i h'
    rw [if_neg h'] at h
    exact absurd rfl h

/-- C8, amended: when the URL list has as many URLs as the prompt has parts that start
with `http`, `CheckImageUrlPosition` succeeds iff no such part lies outside the leading
block and the run that follows the first `--sref` part after the block; so, on success,
every URL of the list that is such a part is located in the block or in that run, and on
failure the error is `InvalidImagePromptPosition`. -/
theorem CheckImageUrlPosition_located (parts urls : List Str) (hcount : parts.countP httpPart = urls.length) :
    (CheckImageUrlPosition parts urls = none ↔
      (∀ p ∈ beforeSref parts, httpPart p = false) ∧
      (∀ p ∈ afterRun parts, httpPart p = false)) ∧
    (CheckImageUrlPosition parts urls = none →
      ∀ u ∈ urls, u ∈ parts → httpPart u = true →
        u ∈ frontBlock parts ∨ u ∈ srefRun parts) ∧
    (CheckImageUrlPosition parts urls ≠ none →
      CheckImageUrlPosition parts urls = some ErrInvalidImagePromptPosition) := by
  have hiff : CheckImageUrlPosition parts urls = none ↔
      (∀ p ∈ beforeSref parts, httpPart p = false) ∧
      (∀ p ∈ afterRun parts, httpPart p = false) := by
    rw [CheckImageUrlPosition_iff, ← hcount, countP_parts]
    have z : ∀ l : List Str, l.countP httpPart = 0 ↔ ∀ p ∈ l, httpPart p = false := by
      intro l
      rw [List.countP_eq_zero]
      simp
    rw [← z, ← z]
    omega
  refine ⟨hiff, ?_, CheckImageUrlPosition_err parts urls⟩
  intro hok u _ hu hhttp
  obtain ⟨hb, ha⟩ := hiff.1 hok
  rcases mem_parts parts u hu with h | h | h | h | h
  · exact Or.inl h
  · rw [hb u h] at hhttp; exact absurd hhttp (by decide)
  · subst h; exact absurd hhttp (by decide)
  · exact Or.inr h
  · rw [ha u h] at hhttp; exact absurd hhttp (by decide)

/-- C8, amended, on two prompts: `city https://a.com/x.png` fails with
`InvalidImagePromptPosition`; with one URL at the front and one after `--sref` the check
succeeds. -/
theorem CheckImageUrlPosition_located_witness :
    CheckImageUrlPosition (SplitSpaceComma "city https://a.com/x.png")
        [("https://a.com/x.png" : Str)] = some ErrInvalidImagePromptPosition ∧
    CheckImageUrlPosition
        (SplitSpaceComma "https://a.com/x.png city --sref https://b.com/y.png")
        [("https://a.com/x.png" : Str), ("https://b.com/y.png" : Str)] = none :=
  ⟨(CheckImageUrlPosition_located (SplitSpaceComma "city https://a.com/x.png") [("https://a.com/x.png" : Str)]
      (by decide)).2.2 (by decide),
   (CheckImageUrlPosition_located (SplitSpaceComma "https://a.com/x.png city --sref https://b.com/y.png")
      [("https://a.com/x.png" : Str), ("https://b.com/y.png" : Str)] (by decide)).1.2
      (by decide)⟩

/-- C8 as stated fails: for `httpfoo cat https://a.com/x.png` and its one URL, which
occurs as a part, `CheckImageUrlPosition` succeeds although the URL comes after the
descriptive text `cat`, outside the leading block, and the prompt has no `--sref`. -/
theorem CheckImageUrlPosition_located_counterexample :
    [("https://a.com/x.png" : Str)] ≠ [] ∧
    (∀ u ∈ [("https://a.com/x.png" : Str)],
      u ∈ SplitSpaceComma "httpfoo cat https://a.com/x.png") ∧
    CheckImageUrlPosition (SplitSpaceComma "httpfoo cat https://a.com/x.png")
      [("https://a.com/x.png" : Str)] = none ∧
    ("--sref" : Str) ∉ SplitSpaceComma "httpfoo cat https://a.com/x.png" ∧
    ("https://a.com/x.png" : Str) ∉ frontBlock (SplitSpaceComma "httpfoo cat https://a.com/x.png") := by
  decide

/-- C9, failing input: the prompt `https://a.com/x.png,` has the image URL as its only
non-empty part, and `CheckImageUrl` succeeds on it, as does the whole pipeline: the
split on spaces and commas yields a second, empty part, and the guard counts it.
Without the comma the check fails with `InvalidPromptParts`. -/
theorem CheckImageUrl_trailing_comma (E : Env) :
    CheckImageUrl E "https://a.com/x.png," [("https://a.com/x.png" : Str)] "" = none ∧
    (SplitSpaceComma "https://a.com/x.png,").filter (fun p => decide (p ≠ []))
      = [("https://a.com/x.png" : Str)] ∧
    CheckPrompt (urlEnv [("https://a.com/x.png" : Str)]) "https://a.com/x.png," false true ""
      = ⟨"https://a.com/x.png,", "", ""⟩ ∧
    CheckImageUrl E "https://a.com/x.png" [("https://a.com/x.png" : Str)] ""
      = some ErrInvalidPromptParts :=
  ⟨rfl, by decide, by decide, rfl⟩

/-! ## Running the pipeline on its own output -/

theorem parseDigits_all (ds : Str) (acc n : Nat) (h : parseDigits ds acc = some n) :
    ∀ c ∈ ds, (digitVal c).isSome = true := by
  induction ds generalizing acc with
  | nil => simp
  | cons d ds ih =>
    intro c hc
    rw [parseDigits] at h
    cases hd : digitVal d with
    | none => rw [hd] at h; exact absurd h (by simp)
    | some k =>
      rw [hd] at h
      rcases List.mem_cons.1 hc with rfl | hc
      · rw [hd]; rfl
      · exact ih _ h c hc

theorem digit_ne_space (c : Char) (h : (digitVal c).isSome = true) : c ≠ ' ' := by
  rintro rfl
  exact absurd h (by decide)

theorem parseDigits_ends (ds : Str) (n : Nat) (hne : ds ≠ [])
    (h : parseDigits ds 0 = some n) : EndsNonSpace ds := by
  rcases List.eq_nil_or_concat ds with h0 | ⟨v', c, rfl⟩
  · exact absurd h0 hne
  · exact ⟨v', c, by simp, digit_ne_space c (parseDigits_all _ _ _ h c (by simp))⟩

theorem EndsNonSpace_append (a v : Str) (h : EndsNonSpace v) : EndsNonSpace (a ++ v) := by
  obtain ⟨v', c, rfl, hc⟩ := h
  exact ⟨a ++ v', c, by simp, hc⟩

theorem Atoi_ends (v : Str) (n : Int) (h : Atoi v = some n) : EndsNonSpace v := by
  cases v with
  | nil => simp [Atoi] at h
  | cons c cs =>
    unfold Atoi at h
    by_cases hc : c = '-' ∨ c = '+'
    · simp only [hc, if_true] at h
      by_cases hne : cs = []
      · simp [hne] at h
      · cases hk : parseDigits cs 0 with
        | none => simp [hk, hne] at h
        | some k => exact EndsNonSpace_append [c] cs (parseDigits_ends cs k hne hk)
    · simp only [hc, if_false] at h
      cases hk : parseDigits (c :: cs) 0 with
      | none => simp [hk] at h
      | some k => exact parseDigits_ends (c :: cs) k (by simp) hk

theorem atoiInRange_ends (v : Str) (lo hi : Int) (h : atoiInRange v lo hi = true) :
    EndsNonSpace v := by
  unfold atoiInRange at h
  cases ha : Atoi v with
  | none => rw [ha] at h; exact absurd h (by simp)
  | some n => exact Atoi_ends v n ha

theorem splitGo_ne_nil (sep : Str) (k : Nat) (cur s : Str) : splitGo sep k cur s ≠ [] := by
  induction s generalizing k cur with
  | nil => simp [splitGo]
  | cons c cs ih =>
    cases k with
    | zero =>
      rw [splitGo]
      split
      · simp
      · exact ih _ _
    | succ k => rw [splitGo]; exact ih _ _

theorem Join_cons_ne (a : Str) (X : List Str) (sep : Str) (hX : X ≠ []) :
    Join (a :: X) sep = a ++ sep ++ Join X sep := by
  cases X with
  | nil => exact absurd rfl hX
  | cons b rest => rfl

theorem splitGo_single_join (d : Char) (cur s : Str) :
    Join (splitGo [d] 0 cur s) [d] = cur ++ s := by
  induction s generalizing cur with
  | nil => simp [splitGo, Join]
  | cons c cs ih =>
    rw [splitGo]
    by_cases h : HasPrefix (c :: cs) [d] = true
    · have hc : c = d := by
        have : d = c := by simpa [HasPrefix, List.isPrefixOf] using h
        exact this.symm
      rw [if_pos h]
      show Join (cur :: splitGo [d] 0 [] cs) [d] = _
      rw [Join_cons_ne _ _ _ (splitGo_ne_nil _ _ _ _), ih, hc]
      simp
    · rw [if_neg h, ih]
      simp

theorem CheckAspectParam_ends (v : Str) (h : CheckAspectParam v = true) : EndsNonSpace v := by
  unfold CheckAspectParam at h
  simp only at h
  split at h
  · exact absurd h (by simp)
  · rename_i hlen
    split at h
    · exact absurd h (by simp)
    · split at h
      · exact absurd h (by simp)
      · rename_i h0 h1
        have hj : Join (Split v ":") ":" = v := by
          have := splitGo_single_join ':' [] v
          simpa [Split] using this
        have hl : (Split v ":").length = 2 := by simpa using hlen
        match hs : Split v ":", hl with
        | [a, b], _ =>
          rw [hs] at hj h1
          have hb : ∃ n, Atoi b = some n := by
            cases hb : Atoi b with
            | none => simp [hb] at h1
            | some n => exact ⟨n, rfl⟩
          obtain ⟨n, hn⟩ := hb
          have := Atoi_ends b n hn
          rw [← hj]
          show EndsNonSpace (a ++ [':'] ++ b)
          rw [List.append_assoc]
          exact EndsNonSpace_append a _ (EndsNonSpace_append _ _ this)

theorem append_ne_nil (a b : Str) (h : a ≠ []) : a ++ b ≠ [] := by
  cases a with
  | nil => exact absurd rfl h
  | cons c cs => simp

theorem StepOK_bind (st : ScanState) (x : Except ScanExit ScanState)
    (f : ScanState → Except ScanExit ScanState) (hx : StepOK st x)
    (hf : ∀ s, StepOK s (f s)) : StepOK st (x.bind f) := by
  cases x with
  | error e => exact hx
  | ok s =>
    have := hf s
    show StepOK st (f s)
    unfold StepOK at this hx ⊢
    cases hfs : f s with
    | error e => rw [hfs] at this; exact this
    | ok s' => rw [hfs] at this; exact fun h => this (hx h)

theorem invalidValue_ne (param value hint : Str) : invalidValue param value hint ≠ [] := by
  unfold invalidValue
  simp only [List.append_assoc]
  exact append_ne_nil _ _ (by decide)

theorem checkBlock_ok (names : List Str) (check : Str → Bool) (hint param : Str)
    (st : ScanState) : StepOK st (checkBlock names check hint param st) := by
  unfold checkBlock
  split
  · split
    · exact invalidValue_ne _ _ _
    · exact fun h => h
  · exact fun h => h

theorem GoodPat_pair (param value : Str) (h : EndsNonSpace value) :
    GoodPat ((" --" : Str) ++ param ++ " " ++ value) := by
  obtain ⟨v', c, rfl, hc⟩ := h
  exact ⟨("--" : Str) ++ param ++ " " ++ v', c, by simp, hc⟩

theorem PatsOK_add (st : ScanState) (P : Str) (v a : Str) (h : PatsOK st) (hP : GoodPat P) :
    PatsOK ⟨v, a, st.unsupportParams ++ [P]⟩ := by
  intro Q hQ
  rcases List.mem_append.1 hQ with hQ | hQ
  · exact h Q hQ
  · simp only [List.mem_singleton] at hQ
    subst hQ; exact hP

theorem aspectBlock_ok (param : Str) (st : ScanState) : StepOK st (aspectBlock param st) := by
  unfold aspectBlock
  split
  · split
    · exact invalidValue_ne _ _ _
    · rename_i hc
      have hv : CheckAspectParam st.value = true := by simpa using hc
      exact fun h => PatsOK_add st _ _ _ h (GoodPat_pair _ _ (CheckAspectParam_ends _ hv))
  · exact fun h => h

theorem repeatBlock_ok (param : Str) (st : ScanState) : StepOK st (repeatBlock param st) := by
  unfold repeatBlock
  split
  · split
    · exact invalidValue_ne _ _ _
    · rename_i hc
      have hv : CheckRepeatParam st.value = true := by simpa using hc
      exact fun h => PatsOK_add st _ _ _ h (GoodPat_pair _ _ (atoiInRange_ends _ _ _ hv))
  · exact fun h => h

theorem srefBlock_ok (param : Str) (after : List Str) (st : ScanState) :
    StepOK st (srefBlock param after st) := by
  unfold srefBlock
  split
  · dsimp only
    split
    · exact append_ne_nil _ _ (append_ne_nil _ _ (append_ne_nil _ _ (by decide)))
    · split
      · exact append_ne_nil _ _ (append_ne_nil _ _ (append_ne_nil _ _ (by decide)))
      · exact fun h => h
  · exact fun h => h

theorem paramChecks_ok (E : Env) (param : Str) (after : List Str) (st : ScanState) :
    StepOK st (paramChecks E param after st) := by
  unfold paramChecks
  refine StepOK_bind _ _ _ (aspectBlock_ok _ _) fun s => ?_
  refine StepOK_bind _ _ _ (checkBlock_ok _ _ _ _ _) fun s => ?_
  refine StepOK_bind _ _ _ (checkBlock_ok _ _ _ _ _) fun s => ?_
  refine StepOK_bind _ _ _ (checkBlock_ok _ _ _ _ _) fun s => ?_
  refine StepOK_bind _ _ _ (repeatBlock_ok _ _) fun s => ?_
  refine StepOK_bind _ _ _ (checkBlock_ok _ _ _ _ _) fun s => ?_
  refine StepOK_bind _ _ _ (checkBlock_ok _ _ _ _ _) fun s => ?_
  refine StepOK_bind _ _ _ (checkBlock_ok _ _ _ _ _) fun s => ?_
  refine StepOK_bind _ _ _ (srefBlock_ok _ _ _) fun s => ?_
  refine StepOK_bind _ _ _ (checkBlock_ok _ _ _ _ _) fun s => ?_
  refine StepOK_bind _ _ _ (checkBlock_ok _ _ _ _ _) fun s => ?_
  exact checkBlock_ok _ _ _ _ _

theorem paramBody_ok (E : Env) (param : Str) (after : List Str) (st : ScanState) :
    StepOK st (paramBody E param after st) := by
  unfold paramBody
  cases after with
  | nil => exact paramChecks_ok E param [] st
  | cons v vs =>
    have := paramChecks_ok E param (v :: vs) { st with value := v }
    unfold StepOK at this ⊢
    split
    · rename_i e he
      rw [he] at this; exact this
    · rename_i s' hs
      rw [hs] at this; exact fun h => this h

theorem scanWords_ok (E : Env) (ws : List Str) (st : ScanState) :
    StepOK st (scanWords E ws st) := by
  induction ws generalizing st with
  | nil => exact fun h => h
  | cons w ws ih =>
    rw [scanWords]
    split
    · exact ih st
    · dsimp only
      split
      · exact append_ne_nil _ _ (append_ne_nil _ _ (by decide))
      · have hb := paramBody_ok E (TrimPrefix w "--") ws st
        cases hbody : paramBody E (TrimPrefix w "--") ws st with
        | error e => rw [hbody] at hb; exact hb
        | ok s' =>
          rw [hbody] at hb
          have := ih s'
          dsimp only
          unfold StepOK at this hb ⊢
          cases hs : scanWords E ws s' with
          | error e => rw [hs] at this; exact this
          | ok s'' => rw [hs] at this; exact fun h => this (hb h)

theorem replaceGo_skip (old new : Str) (k : Nat) (s : Str) :
    replaceGo old new k s = replaceGo old new 0 (s.drop k) := by
  induction s generalizing k with
  | nil => simp [replaceGo]
  | cons c cs ih =>
    cases k with
    | zero => rfl
    | succ k => rw [replaceGo, ih]; rfl

theorem replaceGo_match (old new post : Str) (hold : old ≠ []) :
    replaceGo old new 0 (old ++ post) = new ++ replaceGo old new 0 post := by
  cases old with
  | nil => exact absurd rfl hold
  | cons a old' =>
    have hp : HasPrefix (a :: (old' ++ post)) (a :: old') = true :=
      (HasPrefix_iff _ _).2 ⟨post, rfl⟩
    rw [List.cons_append, replaceGo, if_pos hp, replaceGo_skip]
    simp

theorem replaceGo_step (old new : Str) (c : Char) (cs : Str)
    (h : HasPrefix (c :: cs) old = false) :
    replaceGo old new 0 (c :: cs) = c :: replaceGo old new 0 cs := by
  rw [replaceGo, h]; rfl

theorem replaceGo_sublist (old : Str) (k : Nat) (s : Str) :
    List.Sublist (replaceGo old [] k s) s := by
  induction s generalizing k with
  | nil => simp [replaceGo]
  | cons c cs ih =>
    cases k with
    | succ k => rw [replaceGo]; exact (ih k).trans (List.sublist_cons_self c cs)
    | zero =>
      rw [replaceGo]
      split
      · exact (ih _).trans (List.sublist_cons_self c cs)
      · exact (ih 0).cons₂ c

theorem spaced_after (mid post : Str) (c : Char) (b : Bool) (hc : c ≠ ' ')
    (h : spaced b (mid ++ c :: post) = true) : spaced false post = true := by
  induction mid generalizing b with
  | nil =>
    simpa [spaced, hc] using h
  | cons m mid ih =>
    rw [List.cons_append, spaced] at h
    by_cases hm : m = ' '
    · rw [if_pos hm] at h
      simp only [Bool.and_eq_true] at h
      exact ih true h.2
    · rw [if_neg hm] at h
      exact ih false h

theorem spaced_replace (P : Str) (hP : GoodPat P) (n : Nat) :
    ∀ (s : Str), s.length ≤ n → ∀ b, spaced b s = true →
      spaced b (replaceGo P [] 0 s) = true := by
  obtain ⟨mid, c, rfl, hc⟩ := hP
  induction n with
  | zero =>
    intro s hs b h
    have : s = [] := List.length_eq_zero.1 (Nat.le_zero.1 hs)
    subst this
    simpa [replaceGo] using h
  | succ n ih =>
    intro s hs b h
    cases s with
    | nil => simpa [replaceGo] using h
    | cons d ds =>
      by_cases hp : HasPrefix (d :: ds) (' ' :: (mid ++ [c])) = true
      · obtain ⟨post, hpost⟩ := (HasPrefix_iff _ _).1 hp
        rw [← hpost, replaceGo_match _ _ _ (by simp), List.nil_append]
        rw [← hpost] at h hs
        have hb : b = false := by
          cases b with
          | false => rfl
          | true => simp [spaced] at h
        subst hb
        have h' : spaced true (mid ++ c :: post) = true := by
          simpa [spaced] using h
        apply ih post _ false (spaced_after mid post c true hc h')
        simp at hs
        omega
      · have hp' : HasPrefix (d :: ds) (' ' :: (mid ++ [c])) = false := by simpa using hp
        rw [replaceGo_step _ _ _ _ hp']
        have hlen : ds.length ≤ n := by simp at hs; omega
        rw [spaced] at h ⊢
        by_cases hd : d = ' '
        · rw [if_pos hd] at h ⊢
          simp only [Bool.and_eq_true] at h ⊢
          exact ⟨h.1, ih ds hlen true h.2⟩
        · rw [if_neg hd] at h ⊢
          exact ih ds hlen false h

theorem RemoveUnsupportParams_sublist (pats : List Str) (s : Str) :
    List.Sublist (RemoveUnsupportParams s pats) s := by
  induction pats generalizing s with
  | nil => exact List.Sublist.refl _
  | cons P pats ih =>
    rw [RemoveUnsupportParams]
    refine (ih _).trans ?_
    unfold ReplaceAll
    split
    · simp
    · exact replaceGo_sublist _ _ _

theorem GoodPat_ne_nil (P : Str) (h : GoodPat P) : P ≠ [] := by
  obtain ⟨mid, c, rfl, _⟩ := h
  simp

theorem RemoveUnsupportParams_spaced (pats : List Str) (hp : ∀ P ∈ pats, GoodPat P) (s : Str)
    (h : spaced true s = true) : spaced true (RemoveUnsupportParams s pats) = true := by
  induction pats generalizing s with
  | nil => exact h
  | cons P pats ih =>
    rw [RemoveUnsupportParams]
    apply ih (fun Q hQ => hp Q (List.mem_cons_of_mem _ hQ))
    have hP := hp P (List.mem_cons_self _ _)
    unfold ReplaceAll
    rw [if_neg (GoodPat_ne_nil P hP)]
    exact spaced_replace P hP s.length s (Nat.le_refl _) true h

theorem spaced_ends (s : Str) (b : Bool) (h : spaced b s = true) (hne : s ≠ []) :
    EndsNonSpace s := by
  induction s generalizing b with
  | nil => exact absurd rfl hne
  | cons c cs ih =>
    rw [spaced] at h
    by_cases hc : c = ' '
    · rw [if_pos hc] at h
      simp only [Bool.and_eq_true] at h
      have hcs : cs ≠ [] := by
        rintro rfl
        simp [spaced] at h
      obtain ⟨v, d, hv, hd⟩ := ih true h.2 hcs
      exact ⟨c :: v, d, by rw [hv]; rfl, hd⟩
    · rw [if_neg hc] at h
      by_cases hcs : cs = []
      · subst hcs
        exact ⟨[], c, rfl, hc⟩
      · obtain ⟨v, d, hv, hd⟩ := ih false h hcs
        exact ⟨c :: v, d, by rw [hv]; rfl, hd⟩

theorem Trim_spaced (s : Str) (h : spaced true s = true) : Trim s " " = s := by
  have hne : s ≠ [] := by
    rintro rfl
    simp [spaced] at h
  obtain ⟨v, d, hv, hd⟩ := spaced_ends s true h hne
  have hd' : (" " : Str).contains d = false := by
    show ([' '] : Str).contains d = false
    simpa using hd
  cases s with
  | nil => exact absurd rfl hne
  | cons c cs =>
    have hc : c ≠ ' ' := by
      rintro rfl
      simp [spaced] at h
    have hc' : (" " : Str).contains c = false := by
      show ([' '] : Str).contains c = false
      simpa using hc
    unfold Trim
    rw [List.dropWhile_cons_of_neg (by simpa using hc'), hv, List.reverse_append,
      List.reverse_singleton, List.singleton_append,
      List.dropWhile_cons_of_neg (by simpa using hd')]
    simp

theorem replaceGo_absent (d : Char) (new s : Str) (h : d ∉ s) :
    replaceGo [d] new 0 s = s := by
  induction s with
  | nil => rfl
  | cons c cs ih =>
    have hcd : ¬ d = c := fun e => h (e ▸ List.mem_cons_self _ _)
    have hp : HasPrefix (c :: cs) [d] = false := by
      simp [HasPrefix, List.isPrefixOf, hcd]
    rw [replaceGo_step _ _ _ _ hp, ih (fun hm => h (List.mem_cons_of_mem _ hm))]

theorem fieldsGo_ne_nil (f : Char → Bool) (s cur : Str) (hc : cur ≠ []) :
    fieldsGo f cur s ≠ [] := by
  obtain ⟨w, ws, h⟩ := fieldsGo_open f s cur hc
  rw [h]; simp

theorem Join_fieldsGo (E : Env) (s cur : Str)
    (hsp : ∀ c ∈ s, IsSpace E c = true → c = ' ')
    (h : spaced (decide (cur = [])) s = true ∨ (cur = [] ∧ s = [])) :
    Join (fieldsGo (IsSpace E) cur s) " " = cur ++ s := by
  induction s generalizing cur with
  | nil =>
    by_cases hc : cur = []
    · simp [fieldsGo, hc, Join]
    · simp [fieldsGo, hc, Join]
  | cons c cs ih =>
    have hs : spaced (decide (cur = [])) (c :: cs) = true := by
      rcases h with h | ⟨_, h⟩
      · exact h
      · exact absurd h (by simp)
    have hsp' : ∀ x ∈ cs, IsSpace E x = true → x = ' ' :=
      fun x hx => hsp x (List.mem_cons_of_mem _ hx)
    rw [spaced] at hs
    by_cases hc : c = ' '
    · rw [if_pos hc] at hs
      simp only [Bool.and_eq_true, Bool.not_eq_true', decide_eq_false_iff_not] at hs
      have hf : IsSpace E c = true := by rw [hc]; rfl
      rw [fieldsGo, if_pos hf, if_neg hs.1]
      have hcs : cs ≠ [] := by
        rintro rfl
        simp [spaced] at hs
      have hX : fieldsGo (IsSpace E) [] cs ≠ [] := by
        cases cs with
        | nil => exact absurd rfl hcs
        | cons d ds =>
          have hd : d ≠ ' ' := by
            rintro rfl
            simp [spaced] at hs
          have hfd : ¬ IsSpace E d = true := fun hh => hd (hsp' d (List.mem_cons_self _ _) hh)
          rw [fieldsGo, if_neg hfd]
          exact fieldsGo_ne_nil _ _ _ (by simp)
      rw [Join_cons_ne _ _ _ hX, ih [] hsp' (Or.inl (by simpa using hs.2)), hc]
      show cur ++ [' '] ++ ([] ++ cs) = cur ++ ' ' :: cs
      simp
    · rw [if_neg hc] at hs
      have hf : ¬ IsSpace E c = true := fun hh => hc (hsp c (List.mem_cons_self _ _) hh)
      rw [fieldsGo, if_neg hf, ih (cur ++ [c]) hsp' (Or.inl (by simpa using hs))]
      simp

theorem PreprocessPrompt_normalized (E : Env) (s : Str) (hn : Normalized E s)
    (hd : '—' ∉ s) : (PreprocessPrompt E s).1 = s := by
  have h1 : ReplaceAll s "—" "--" = s := by
    unfold ReplaceAll
    rw [if_neg (by decide)]
    exact replaceGo_absent '—' _ s hd
  show Join (Fields E (Trim (ReplaceAll s "—" "--") " ")) " " = s
  rw [h1]
  rcases hn.1 with rfl | hs
  · rfl
  · rw [Trim_spaced s hs]
    have := Join_fieldsGo E s [] hn.2 (Or.inl (by simpa using hs))
    simpa [Fields, FieldsFunc] using this

theorem mem_Join (ws : List Str) (sep : Str) (c : Char) (h : c ∈ Join ws sep) :
    c ∈ sep ∨ ∃ w ∈ ws, c ∈ w := by
  induction ws with
  | nil => simp [Join] at h
  | cons a rest ih =>
    cases rest with
    | nil => exact Or.inr ⟨a, List.mem_cons_self _ _, by simpa [Join] using h⟩
    | cons b rest' =>
      rw [Join, List.mem_append, List.mem_append] at h
      rcases h with (h | h) | h
      · exact Or.inr ⟨a, List.mem_cons_self _ _, h⟩
      · exact Or.inl h
      · rcases ih h with h' | ⟨w, hw, hc⟩
        · exact Or.inl h'
        · exact Or.inr ⟨w, List.mem_cons_of_mem _ hw, hc⟩

theorem spaced_word (w rest : Str) (b : Bool) (hw : ∀ c ∈ w, c ≠ ' ') (hne : w ≠ []) :
    spaced b (w ++ rest) = spaced false rest := by
  induction w generalizing b with
  | nil => exact absurd rfl hne
  | cons c cs ih =>
    rw [List.cons_append, spaced, if_neg (hw c (List.mem_cons_self _ _))]
    by_cases hcs : cs = []
    · subst hcs; rfl
    · exact ih false (fun x hx => hw x (List.mem_cons_of_mem _ hx)) hcs

theorem spaced_Join (ws : List Str) (hws : ∀ w ∈ ws, w ≠ [] ∧ ∀ c ∈ w, c ≠ ' ')
    (hne : ws ≠ []) : spaced true (Join ws " ") = true := by
  induction ws with
  | nil => exact absurd rfl hne
  | cons a rest ih =>
    have ha := hws a (List.mem_cons_self _ _)
    cases rest with
    | nil =>
      have := spaced_word a [] true ha.2 ha.1
      rw [List.append_nil] at this
      rw [Join, this]; rfl
    | cons b rest' =>
      rw [Join, List.append_assoc, spaced_word a _ true ha.2 ha.1]
      show spaced false (' ' :: Join (b :: rest') " ") = true
      rw [spaced, if_pos rfl]
      simp only [Bool.not_false, Bool.true_and]
      exact ih (fun w hw => hws w (List.mem_cons_of_mem _ hw)) (by simp)

theorem replaceGo_removed (d : Char) (new s : Str) (hn : d ∉ new) :
    d ∉ replaceGo [d] new 0 s := by
  induction s with
  | nil => simp [replaceGo]
  | cons c cs ih =>
    by_cases hp : HasPrefix (c :: cs) [d] = true
    · rw [replaceGo, if_pos hp]
      show d ∉ new ++ replaceGo [d] new 0 cs
      rw [List.mem_append]
      exact fun h => h.elim hn ih
    · have hp' : HasPrefix (c :: cs) [d] = false := by simpa using hp
      have hcd : ¬ d = c := by
        intro e
        apply hp
        simp [HasPrefix, List.isPrefixOf, e]
      rw [replaceGo_step _ _ _ _ hp']
      simp only [List.mem_cons, not_or]
      exact ⟨hcd, ih⟩

theorem mem_Trim (s cutset : Str) (c : Char) (h : c ∈ Trim s cutset) : c ∈ s := by
  unfold Trim at h
  rw [List.mem_reverse] at h
  have h1 := (List.dropWhile_sublist _).subset h
  rw [List.mem_reverse] at h1
  exact (List.dropWhile_sublist _).subset h1

theorem mem_Fields (E : Env) (x w : Str) (hw : w ∈ Fields E x) :
    w ≠ [] ∧ (∀ c ∈ w, IsSpace E c = false) ∧ ∀ c ∈ w, c ∈ x := by
  obtain ⟨pre, post, hx, hne, hall, _, _⟩ := (mem_FieldsFunc_iff (IsSpace E) w x).1 hw
  refine ⟨hne, hall, fun c hc => ?_⟩
  rw [hx]
  simp [hc]

theorem PreprocessPrompt_props (E : Env) (p : Str) :
    Normalized E (PreprocessPrompt E p).1 ∧ '—' ∉ (PreprocessPrompt E p).1 := by
  show Normalized E (Join (Fields E (Trim (ReplaceAll p "—" "--") " ")) " ") ∧
    '—' ∉ Join (Fields E (Trim (ReplaceAll p "—" "--") " ")) " "
  have hsp : IsSpace E ' ' = true := rfl
  refine ⟨⟨?_, ?_⟩, ?_⟩
  · by_cases hne : Fields E (Trim (ReplaceAll p "—" "--") " ") = []
    · rw [hne]; exact Or.inl rfl
    · refine Or.inr (spaced_Join _ (fun w hw => ?_) hne)
      obtain ⟨h1, h2, _⟩ := mem_Fields E _ w hw
      refine ⟨h1, fun c hc e => ?_⟩
      have := h2 c hc
      rw [e, hsp] at this
      exact absurd this (by decide)
  · intro c hc hs
    rcases mem_Join _ _ c hc with h | ⟨w, hw, hcw⟩
    · have : c ∈ ([' '] : Str) := h
      simpa using this
    · have := (mem_Fields E _ w hw).2.1 c hcw
      rw [hs] at this
      exact absurd this (by decide)
  · intro hc
    rcases mem_Join _ _ _ hc with h | ⟨w, hw, hcw⟩
    · exact absurd h (by decide)
    · have h1 := (mem_Fields E _ w hw).2.2 _ hcw
      have h2 := mem_Trim _ _ _ h1
      unfold ReplaceAll at h2
      rw [if_neg (by decide)] at h2
      exact replaceGo_removed '—' _ p (by decide) h2

theorem Contains_singleton_iff (s : Str) (c : Char) : Contains s [c] = true ↔ c ∈ s := by
  rw [Contains_iff]
  constructor
  · rintro ⟨a, b, h⟩
    rw [← h]; simp
  · intro h
    obtain ⟨a, b, h⟩ := List.append_of_mem h
    exact ⟨a, b, by rw [h]; simp⟩

theorem len_sublist (a b : Str) (h : List.Sublist a b) : len a ≤ len b := by
  unfold len
  exact (h.map Char.utf8Size).sum_le_sum (fun _ _ => Nat.zero_le _)

theorem CheckPromptStruct_ne (p : Str) (ae : Bool) (e : Str)
    (h : CheckPromptStruct p ae = some e) : e ≠ [] := by
  unfold CheckPromptStruct CheckPromptEmpty CheckPromptEmptyWithParams CheckPromptLength at h
  have h1 : ErrPromptEmpty ≠ [] := by decide
  have h2 : ErrPromptEmptyWithParams ≠ [] := by decide
  have h3 : ErrPromptTooLong ≠ [] := by decide
  split at h
  · rename_i e1 he1
    split at he1
    · split at he1
      · simp only [Option.some.injEq] at he1 h; rw [← h, ← he1]; exact h1
      · exact absurd he1 (by simp)
    · exact absurd he1 (by simp)
  · split at h
    · rename_i e2 he2
      split at he2
      · simp only [Option.some.injEq] at he2 h; rw [← h, ← he2]; exact h2
      · exact absurd he2 (by simp)
    · split at h
      · rename_i e3 he3
        split at he3
        · simp only [Option.some.injEq] at he3 h; rw [← h, ← he3]; exact h3
        · exact absurd he3 (by simp)
      · exact absurd h (by simp)

theorem CheckPromptBannedWords_ne (E : Env) (t e : Str)
    (h : CheckPromptBannedWords E t = some e) : e ≠ [] := by
  obtain ⟨w, _, _, hm⟩ := bannedLoop_some _ _ _ _ h
  rw [hm]
  exact append_ne_nil _ _ (by decide)

theorem validLoop_ne (E : Env) (skip : Bool) (proxy : Str) (urls : List Str) (e : Str)
    (h : validLoop E skip proxy urls = some e) : e ≠ [] := by
  induction urls with
  | nil => simp [validLoop] at h
  | cons u rest ih =>
    rw [validLoop] at h
    split at h
    · simp only [Option.some.injEq] at h
      rw [← h]
      exact append_ne_nil _ _ (append_ne_nil _ _ (by decide))
    · split at h
      · exact ih h
      · split at h
        · simp only [Option.some.injEq] at h
          rw [← h]; decide
        · split at h
          · simp only [Option.some.injEq] at h
            rw [← h]
            exact append_ne_nil _ _ (append_ne_nil _ _ (append_ne_nil _ _
              (append_ne_nil _ _ (by decide))))
          · exact ih h

theorem CheckImageUrl_ne (E : Env) (p : Str) (urls : List Str) (proxy e : Str)
    (h : CheckImageUrl E p urls proxy = some e) : e ≠ [] := by
  unfold CheckImageUrl at h
  split at h
  · exact absurd h (by simp)
  · dsimp only at h
    split at h
    · rename_i e1 he1
      have := CheckImageUrlPosition_err _ _ (by rw [he1]; simp)
      rw [he1] at this
      simp only [Option.some.injEq] at this h
      rw [← h, this]; decide
    · split at h
      · simp only [Option.some.injEq] at h
        rw [← h]; decide
      · split at h
        · rename_i e2 he2
          simp only [Option.some.injEq] at h
          rw [← h]
          unfold CheckImageUrlValid at he2
          split at he2
          · exact validLoop_ne _ _ _ _ _ he2
          · split at he2
            · simp only [Option.some.injEq] at he2
              rw [← he2]; decide
            · exact validLoop_ne _ _ _ _ _ he2
        · exact absurd h (by simp)

theorem checkSpacesLoop_ne (n : Nat) (s e : Str) (h : checkSpacesLoop n s = some e) :
    e ≠ [] := by
  induction n generalizing s with
  | zero => simp [checkSpacesLoop] at h
  | succ n ih =>
    rw [checkSpacesLoop] at h
    split at h
    · exact absurd h (by simp)
    · split at h
      · simp only [Option.some.injEq] at h
        rw [← h]; exact append_ne_nil _ _ (by decide)
      · split at h
        · simp only [Option.some.injEq] at h
          rw [← h]; exact append_ne_nil _ _ (by decide)
        · exact ih _ h

theorem CheckPromptParam_result (E : Env) (prompt : Str) (words : List Str) :
    (∀ e, (CheckPromptParam E prompt words).2.2 = some e → e ≠ []) ∧
    ((CheckPromptParam E prompt words).2.2 = none →
      CheckPermutation prompt = none ∧
      ∃ pats, (∀ P ∈ pats, GoodPat P) ∧
        (CheckPromptParam E prompt words).1 = RemoveUnsupportParams prompt pats) := by
  unfold CheckPromptParam
  cases hperm : CheckPermutation prompt with
  | some e0 =>
    dsimp only
    refine ⟨fun e he => ?_, fun h => absurd h (by simp)⟩
    simp only [Option.some.injEq] at he
    unfold CheckPermutation at hperm
    split at hperm
    · simp only [Option.some.injEq] at hperm
      rw [← he, ← hperm]; decide
    · exact absurd hperm (by simp)
  | none =>
    dsimp only
    split
    · exact ⟨fun e he => absurd he (by simp), fun _ => ⟨rfl, [], by simp, rfl⟩⟩
    · cases hsp : CheckSpaces prompt with
      | some e1 =>
        dsimp only
        refine ⟨fun e he => ?_, fun h => absurd h (by simp)⟩
        simp only [Option.some.injEq] at he
        rw [← he]
        exact checkSpacesLoop_ne _ _ _ hsp
      | none =>
        dsimp only
        have hok := scanWords_ok E words ⟨[], [], []⟩
        cases hscan : scanWords E words ⟨[], [], []⟩ with
        | error e2 =>
          rw [hscan] at hok
          dsimp only
          refine ⟨fun e he => ?_, fun h => absurd h (by simp)⟩
          simp only [Option.some.injEq] at he
          rw [← he]; exact hok
        | ok st =>
          rw [hscan] at hok
          dsimp only
          refine ⟨fun e he => absurd he (by simp), fun _ => ⟨rfl, st.unsupportParams, ?_, rfl⟩⟩
          exact hok (fun P hP => absurd hP (List.not_mem_nil _))

theorem HasPrefix_Contains (s sub : Str) (h : HasPrefix s sub = true) : Contains s sub = true := by
  rw [Contains_iff]
  exact ((HasPrefix_iff s sub).1 h).isInfix

theorem CheckPromptParam_plain (E : Env) (q : Str) (words : List Str)
    (hperm : CheckPermutation q = none) (hdash : Contains q "--" = false) :
    CheckPromptParam E q words = (q, [], none) := by
  unfold CheckPromptParam
  rw [hperm]; dsimp only
  rw [hdash]; rfl

/-- C10, amended: if `CheckPrompt` with `allowEmpty` set succeeds on `p` with output prompt
`q`, and `q` contains no `--` and no URL, and the banned-word check is disabled or passes
on the lowered words of `q`, then `CheckPrompt` on `q` returns an empty error message,
the prompt `q` unchanged and an empty aspect ratio. -/
theorem CheckPrompt_idempotent (E : Env) (p q : Str) (cbw : Bool) (proxyUrl : Str)
    (hok : (CheckPrompt E p true cbw proxyUrl).ErrorMessage = [])
    (hq : (CheckPrompt E p true cbw proxyUrl).Prompt = q)
    (hdash : Contains q "--" = false)
    (hurl : E.FindAllString q = [])
    (hban : cbw = true →
      CheckPromptBannedWords E (Join (PreprocessPrompt E q).2.1 " ") = none) :
    CheckPrompt E q true cbw proxyUrl = ⟨q, [], []⟩ := by
  -- the first run
  obtain ⟨hnorm, hdashP⟩ := PreprocessPrompt_props E p
  have hfirst : CheckPromptStruct (PreprocessPrompt E p).1 true = none ∧
      (CheckPromptParam E (PreprocessPrompt E p).1 (PreprocessPrompt E p).2.1).2.2 = none ∧
      (CheckPromptParam E (PreprocessPrompt E p).1 (PreprocessPrompt E p).2.1).1 = q := by
    unfold CheckPrompt at hok hq
    dsimp only at hok hq
    cases hs : CheckPromptStruct (PreprocessPrompt E p).1 true with
    | some e =>
      rw [hs] at hok
      exact absurd hok (CheckPromptStruct_ne _ _ _ hs)
    | none =>
      rw [hs] at hok hq
      dsimp only at hok hq
      cases hb : (if cbw = true then
          CheckPromptBannedWords E (Join (PreprocessPrompt E p).2.1 " ") else none) with
      | some e =>
        rw [hb] at hok
        have : CheckPromptBannedWords E (Join (PreprocessPrompt E p).2.1 " ") = some e := by
          cases cbw <;> simp_all
        exact absurd hok (CheckPromptBannedWords_ne _ _ _ this)
      | none =>
        rw [hb] at hok hq
        dsimp only at hok hq
        refine ⟨rfl, ?_, hq⟩
        cases hi : CheckImageUrl E
            (CheckPromptParam E (PreprocessPrompt E p).1 (PreprocessPrompt E p).2.1).1
            (PreprocessPrompt E p).2.2 proxyUrl with
        | some e =>
          rw [hi] at hok
          exact absurd hok (CheckImageUrl_ne _ _ _ _ _ hi)
        | none =>
          rw [hi] at hok
          cases hr : (CheckPromptParam E (PreprocessPrompt E p).1
              (PreprocessPrompt E p).2.1).2.2 with
          | none => rfl
          | some e =>
            rw [hr] at hok
            exact absurd hok ((CheckPromptParam_result E _ _).1 e hr)
  obtain ⟨hstruct, hnone, hq1⟩ := hfirst
  obtain ⟨hperm, pats, hpats, hq2⟩ := (CheckPromptParam_result E _ _).2 hnone
  rw [hq1] at hq2
  -- what the output inherits from the normalized prompt
  have hsub : List.Sublist q (PreprocessPrompt E p).1 := by
    rw [hq2]; exact RemoveUnsupportParams_sublist _ _
  have hqnorm : Normalized E q := by
    refine ⟨?_, fun c hc => hnorm.2 c (hsub.subset hc)⟩
    rcases hnorm.1 with h0 | h1
    · rw [h0] at hsub
      exact Or.inl (List.sublist_nil.1 hsub)
    · rw [hq2]
      exact Or.inr (RemoveUnsupportParams_spaced pats hpats _ h1)
  have hqdash : '—' ∉ q := fun h => hdashP (hsub.subset h)
  have hqperm : CheckPermutation q = none := by
    unfold CheckPermutation at hperm ⊢
    split at hperm
    · exact absurd hperm (by simp)
    · rename_i hc
      simp only [Bool.or_eq_true, not_or, Bool.not_eq_true] at hc
      have h1 : Contains q "\x7b" = false := by
        cases h : Contains q "\x7b" with
        | false => rfl
        | true =>
          have := (Contains_singleton_iff _ _).2 (hsub.subset ((Contains_singleton_iff q _).1 h))
          exact absurd (this.symm.trans hc.1) (by decide)
      have h2 : Contains q "\x7d" = false := by
        cases h : Contains q "\x7d" with
        | false => rfl
        | true =>
          have := (Contains_singleton_iff _ _).2 (hsub.subset ((Contains_singleton_iff q _).1 h))
          exact absurd (this.symm.trans hc.2) (by decide)
      rw [h1, h2]; rfl
  have hqlen : ¬ len q > 6000 := by
    have h1 : ¬ len (PreprocessPrompt E p).1 > 6000 := by
      intro hl
      unfold CheckPromptStruct CheckPromptLength at hstruct
      rw [if_pos hl] at hstruct
      revert hstruct
      simp only [Bool.not_true, Bool.false_eq_true, if_false]
      split <;> simp
    have := len_sublist _ _ hsub
    omega
  have hqpre : HasPrefix q "--" = false := by
    cases h : HasPrefix q "--" with
    | false => rfl
    | true =>
      rw [HasPrefix_Contains q _ h] at hdash
      exact absurd hdash (by decide)
  -- the second run
  have hpre : (PreprocessPrompt E q).1 = q := PreprocessPrompt_normalized E q hqnorm hqdash
  have hurls : (PreprocessPrompt E q).2.2 = [] := hurl
  have hstruct2 : CheckPromptStruct q true = none := by
    unfold CheckPromptStruct CheckPromptEmptyWithParams CheckPromptLength
    rw [hqpre, if_neg hqlen]
    rfl
  have hb2 : (if cbw = true then
      CheckPromptBannedWords E (Join (PreprocessPrompt E q).2.1 " ") else none) = none := by
    cases cbw <;> simp_all
  unfold CheckPrompt
  dsimp only
  rw [hpre, hstruct2, hb2, hurls, CheckPromptParam_plain E q _ hqperm hdash]
  rfl

/-- C10, amended, on the output `sunset beach` of `sunset --ar 16:9 beach --r 2`, with the
banned-word check enabled. -/
theorem CheckPrompt_idempotent_witness :
    CheckPrompt sampleEnv "sunset beach" true true "" = ⟨"sunset beach", [], []⟩ :=
  CheckPrompt_idempotent sampleEnv "sunset --ar 16:9 beach --r 2" "sunset beach" true ""
    (by decide) (by decide) (by decide) (by decide) (fun _ => by decide)

/-- C10 as stated fails: with the banned phrase `very bad word` and the check enabled,
`very --ar 1:1 bad word` passes and is stripped to `very bad word`, which contains no
`--` and no URL; the second run on that output reports `Banned Prompt: very bad word`. -/
theorem CheckPrompt_idempotent_counterexample :
    (CheckPrompt sampleEnv "very --ar 1:1 bad word" true true "").ErrorMessage = [] ∧
    (CheckPrompt sampleEnv "very --ar 1:1 bad word" true true "").Prompt
      = ("very bad word" : Str) ∧
    Contains ("very bad word" : Str) "--" = false ∧
    sampleEnv.FindAllString "very bad word" = [] ∧
    (CheckPrompt sampleEnv "very bad word" true true "").ErrorMessage
      = ("Banned Prompt: very bad word" : Str) := by
  decide

/-! ## The spacing guard (`CheckSpaces`) -/

theorem checkSpacesLoop_fuel_irrel (n : Nat) :
    ∀ (m : Nat) (s : Str), s.length ≤ n → s.length ≤ m →
      checkSpacesLoop n s = checkSpacesLoop m s := by
  induction n with
  | zero =>
    intro m s hn _
    have : s = [] := List.length_eq_zero.1 (Nat.le_zero.1 hn)
    subst this
    cases m with
    | zero => rfl
    | succ m => rfl
  | succ n ih =>
    intro m s hn hm
    cases m with
    | zero =>
      have : s = [] := List.length_eq_zero.1 (Nat.le_zero.1 hm)
      subst this
      rfl
    | succ m =>
      rw [checkSpacesLoop, checkSpacesLoop]
      cases Index s "--" with
      | none => rfl
      | some i =>
        dsimp only
        split
        · rfl
        · split
          · rfl
          · apply ih
            · rw [List.length_drop]; omega
            · rw [List.length_drop]; omega

/-- The round counter of `CheckSpaces` never runs out: more rounds change nothing. -/
theorem CheckSpaces_fuel (s : Str) (n : Nat) (h : s.length ≤ n) :
    checkSpacesLoop n s = CheckSpaces s :=
  checkSpacesLoop_fuel_irrel n s.length s h (Nat.le_refl _)

/-! ## The extension rule (`CheckImageUrlValid`) -/

theorem HasSuffix_iff (s suf : Str) : HasSuffix s suf = true ↔ suf <:+ s := by
  unfold HasSuffix
  exact List.isSuffixOf_iff_suffix

theorem beforeFirst_cons (c : Char) (cs sep : Str) (h : HasPrefix (c :: cs) sep = false) :
    beforeFirst (c :: cs) sep = c :: beforeFirst cs sep := by
  unfold beforeFirst
  rw [Index, h]
  simp only [Bool.false_eq_true, if_false]
  cases Index cs sep with
  | none => rfl
  | some i => rfl

theorem splitGo_head (sep cur s : Str) :
    (splitGo sep 0 cur s).headD [] = cur ++ beforeFirst s sep := by
  induction s generalizing cur with
  | nil =>
    unfold beforeFirst
    rw [splitGo, Index]
    split <;> simp
  | cons c cs ih =>
    rw [splitGo]
    by_cases h : HasPrefix (c :: cs) sep = true
    · rw [if_pos h]
      unfold beforeFirst
      rw [Index, if_pos h]
      simp
    · have h' : HasPrefix (c :: cs) sep = false := by simpa using h
      rw [if_neg h, ih, beforeFirst_cons c cs sep h']
      simp

theorem Split_head (s sep : Str) (hsep : sep ≠ []) :
    (Split s sep).headD [] = beforeFirst s sep := by
  unfold Split
  rw [if_neg hsep, splitGo_head]
  rfl

theorem extensionOk_iff (url : Str) : extensionOk url = true ↔ HasImageExtension url := by
  unfold extensionOk HasImageExtension imageExtensions
  simp only [Bool.or_eq_true, HasSuffix_iff, List.mem_cons, List.mem_singleton,
    List.not_mem_nil, or_false, exists_eq_or_imp, exists_eq_left, or_assoc]

theorem validLoop_skip_cons (E : Env) (proxy u : Str) (rest : List Str) :
    validLoop E true proxy (u :: rest) =
      if extensionOk (beforeFirst u "::") then validLoop E true proxy rest
      else some (contentTypeError (beforeFirst u "::")) := by
  rw [validLoop, Split_head u _ (by decide)]
  unfold extensionOk contentTypeError
  cases HasSuffix (beforeFirst u "::") ".jpg" <;> cases HasSuffix (beforeFirst u "::") ".jpeg" <;>
    cases HasSuffix (beforeFirst u "::") ".png" <;> cases HasSuffix (beforeFirst u "::") ".gif" <;>
    cases HasSuffix (beforeFirst u "::") ".webp" <;> rfl

/-- C11: with an empty proxy address, `CheckImageUrlValid` succeeds iff every URL, cut before
its first `::`, ends in one of `.jpg`, `.jpeg`, `.png`, `.gif`, `.webp`; otherwise it fails with
the `InvalidImageContentType` message followed by the first offending URL of the list,
cut before its first `::`. -/
theorem CheckImageUrlValid_extensions (E : Env) (urls : List Str) :
    (CheckImageUrlValid E urls "" = none ↔
      ∀ u ∈ urls, HasImageExtension (beforeFirst u "::")) ∧
    (∀ l1 u l2, urls = l1 ++ u :: l2 →
      (∀ v ∈ l1, HasImageExtension (beforeFirst v "::")) →
      ¬ HasImageExtension (beforeFirst u "::") →
      CheckImageUrlValid E urls "" = some (contentTypeError (beforeFirst u "::"))) := by
  have h0 : CheckImageUrlValid E urls "" = validLoop E true "" urls := rfl
  rw [h0]
  clear h0
  constructor
  · induction urls with
    | nil => simp [validLoop]
    | cons u rest ih =>
      rw [validLoop_skip_cons]
      by_cases h : extensionOk (beforeFirst u "::") = true
      · rw [if_pos h, ih]
        simp only [List.mem_cons, forall_eq_or_imp, (extensionOk_iff _).1 h, true_and]
      · rw [if_neg h]
        simp only [List.mem_cons, forall_eq_or_imp, reduceCtorEq, false_iff, not_and]
        intro h1
        exact absurd ((extensionOk_iff _).2 h1) h
  · intro l1 u l2 hl h1 hu
    subst hl
    induction l1 with
    | nil =>
      rw [List.nil_append, validLoop_skip_cons, if_neg (fun h => hu ((extensionOk_iff _).1 h))]
    | cons a l ih =>
      rw [List.cons_append, validLoop_skip_cons,
        if_pos ((extensionOk_iff _).2 (h1 a (List.mem_cons_self _ _)))]
      exact ih (fun v hv => h1 v (List.mem_cons_of_mem _ hv))

/-- C11, on a list whose second URL ends in `.bmp`: the message names that URL without its
weight suffix, and the third URL is not looked at. -/
theorem CheckImageUrlValid_extensions_witness :
    CheckImageUrlValid sampleEnv
        [("https://a.com/x.png::2" : Str), ("https://b.com/y.bmp::3" : Str),
         ("https://c.com/z" : Str)] "" =
      some (contentTypeError "https://b.com/y.bmp") :=
  (CheckImageUrlValid_extensions sampleEnv _).2 [("https://a.com/x.png::2" : Str)] "https://b.com/y.bmp::3"
    [("https://c.com/z" : Str)] rfl
    (by
      intro v hv
      simp only [List.mem_singleton] at hv
      subst hv
      exact (extensionOk_iff _).1 (by decide))
    (fun h => absurd ((extensionOk_iff _).2 h) (by decide))

/-! ## The value checks of the parameters -/

theorem digitVal_some_iff (c : Char) (d : Nat) :
    digitVal c = some d ↔ IsDigit c ∧ d = c.toNat - 48 := by
  unfold digitVal IsDigit
  split
  · rename_i h
    simp only [Option.some.injEq, h, and_self, true_and]
    exact eq_comm
  · rename_i h
    simp only [reduceCtorEq, false_iff, not_and]
    intro h'
    exact absurd h' h

theorem digitVal_none_iff (c : Char) : digitVal c = none ↔ ¬ IsDigit c := by
  unfold digitVal IsDigit
  split
  · rename_i h; simp [h]
  · rename_i h; simp only [true_iff]; exact h

theorem parseDigits_iff (ds : Str) (acc v : Nat) :
    parseDigits ds acc = some v ↔
      (∀ c ∈ ds, IsDigit c) ∧ v = ds.foldl (fun a c => a * 10 + (c.toNat - 48)) acc := by
  induction ds generalizing acc with
  | nil => simp [parseDigits, eq_comm]
  | cons c cs ih =>
    rw [parseDigits]
    cases h : digitVal c with
    | none =>
      have := (digitVal_none_iff c).1 h
      simp only [reduceCtorEq, List.mem_cons, forall_eq_or_imp, false_iff, not_and]
      intro h1
      exact absurd h1.1 this
    | some d =>
      obtain ⟨hd, hv⟩ := (digitVal_some_iff c d).1 h
      simp only [ih, List.mem_cons, forall_eq_or_imp, hd, true_and, List.foldl_cons, hv]

theorem IsDigit_not_sign (c : Char) (h : IsDigit c) : ¬ (c = '-' ∨ c = '+') := by
  unfold IsDigit at h
  rintro (rfl | rfl)
  · exact absurd h (by decide)
  · exact absurd h (by decide)

theorem Atoi_iff (s : Str) (n : Int) :
    Atoi s = some n ↔ DenotesInt s n ∧ -(2 ^ 63 : Int) ≤ n ∧ n < (2 ^ 63 : Int) := by
  constructor
  · intro h
    cases s with
    | nil => simp [Atoi] at h
    | cons c cs =>
      unfold Atoi at h
      by_cases hc : c = '-' ∨ c = '+'
      · simp only [hc, if_true] at h
        by_cases hne : cs = []
        · simp [hne] at h
        · rw [if_neg hne] at h
          cases hk : parseDigits cs 0 with
          | none => simp [hk] at h
          | some k =>
            rw [hk] at h
            obtain ⟨hall, hv⟩ := (parseDigits_iff cs 0 k).1 hk
            have hk' : k = decimalValue cs := hv
            rcases hc with rfl | rfl
            · simp only [decide_True, if_true] at h
              split at h
              · rename_i hle
                simp only [Option.some.injEq] at h
                refine ⟨⟨cs, hne, hall, Or.inr ⟨rfl, by rw [← h, hk']⟩⟩, ?_, ?_⟩ <;> omega
              · exact absurd h (by simp)
            · have hd : decide ('+' = '-') = false := by decide
              simp only [hd, Bool.false_eq_true, if_false] at h
              split at h
              · rename_i hlt
                simp only [Option.some.injEq] at h
                refine ⟨⟨cs, hne, hall, Or.inl ⟨Or.inr rfl, by rw [← h, hk']⟩⟩, ?_, ?_⟩ <;> omega
              · exact absurd h (by simp)
      · simp only [hc, if_false] at h
        have hd : decide (c = '-') = false := by
          simp only [decide_eq_false_iff_not]
          exact fun e => hc (Or.inl e)
        cases hk : parseDigits (c :: cs) 0 with
        | none => simp [hk] at h
        | some k =>
          rw [hk] at h
          obtain ⟨hall, hv⟩ := (parseDigits_iff (c :: cs) 0 k).1 hk
          have hk' : k = decimalValue (c :: cs) := hv
          simp only [hd, Bool.false_eq_true, if_false, reduceCtorEq] at h
          split at h
          · rename_i hlt
            simp only [Option.some.injEq] at h
            refine ⟨⟨c :: cs, by simp, hall, Or.inl ⟨Or.inl rfl, by rw [← h, hk']⟩⟩, ?_, ?_⟩
              <;> omega
          · exact absurd h (by simp)
  · rintro ⟨⟨ds, hne, hall, hcase⟩, hlo, hhi⟩
    have hp : parseDigits ds 0 = some (decimalValue ds) := (parseDigits_iff ds 0 _).2 ⟨hall, rfl⟩
    rcases hcase with ⟨hs | hs, hn⟩ | ⟨hs, hn⟩
    · subst hs
      cases s with
      | nil => exact absurd rfl hne
      | cons c cs =>
        have hc := IsDigit_not_sign c (hall c (List.mem_cons_self _ _))
        have hd : decide (c = '-') = false := by
          simp only [decide_eq_false_iff_not]
          exact fun e => hc (Or.inl e)
        unfold Atoi
        simp only [hc, if_false, hp, hd, Bool.false_eq_true, reduceCtorEq]
        rw [if_pos (by omega), hn]
    · subst hs
      unfold Atoi
      have hd : decide ('+' = '-') = false := by decide
      simp only [or_true, if_true, hne, if_false, hp, hd, Bool.false_eq_true]
      rw [if_pos (by omega), hn]
    · subst hs
      unfold Atoi
      simp only [true_or, if_true, hne, if_false, hp, decide_True]
      rw [if_pos (by omega), hn]

theorem atoiInRange_iff (s : Str) (lo hi : Int) (hlo : -(2 ^ 63 : Int) ≤ lo)
    (hhi : hi < (2 ^ 63 : Int)) :
    atoiInRange s lo hi = true ↔ ∃ n, DenotesInt s n ∧ lo ≤ n ∧ n ≤ hi := by
  unfold atoiInRange
  constructor
  · intro h
    cases ha : Atoi s with
    | none => rw [ha] at h; exact absurd h (by simp)
    | some n =>
      rw [ha] at h
      have hr : ¬ (n < lo ∨ n > hi) := by
        intro hc
        simp [hc] at h
      exact ⟨n, ((Atoi_iff s n).1 ha).1, by omega, by omega⟩
  · rintro ⟨n, hd, h1, h2⟩
    have ha : Atoi s = some n := (Atoi_iff s n).2 ⟨hd, by omega, by omega⟩
    rw [ha]
    have hr : ¬ (n < lo ∨ n > hi) := by omega
    simp [hr]

/-- C12: each integer-ranged check accepts a string iff it is a decimal integer (digits with
an optional sign, which is what `strconv.Atoi` parses) whose value lies in the closed
range of the parameter: chaos 0-100, repeat 1-40, stop 10-100, stylize 0-1000,
sw 0-1000, weird 0-3000. Both endpoints are accepted and their outer neighbours rejected. -/
theorem integer_param_ranges (s : Str) :
    (CheckChaosParam s = true ↔ ∃ n, DenotesInt s n ∧ 0 ≤ n ∧ n ≤ 100) ∧
    (CheckRepeatParam s = true ↔ ∃ n, DenotesInt s n ∧ 1 ≤ n ∧ n ≤ 40) ∧
    (CheckStopParam s = true ↔ ∃ n, DenotesInt s n ∧ 10 ≤ n ∧ n ≤ 100) ∧
    (CheckStylizeParam s = true ↔ ∃ n, DenotesInt s n ∧ 0 ≤ n ∧ n ≤ 1000) ∧
    (CheckStyleReferenceWeightParam s = true ↔ ∃ n, DenotesInt s n ∧ 0 ≤ n ∧ n ≤ 1000) ∧
    (CheckWeirdParam s = true ↔ ∃ n, DenotesInt s n ∧ 0 ≤ n ∧ n ≤ 3000) ∧
    (∀ n, Atoi s = some n ↔ DenotesInt s n ∧ -(2 ^ 63 : Int) ≤ n ∧ n < (2 ^ 63 : Int)) ∧
    (CheckChaosParam "0" = true ∧ CheckChaosParam "100" = true ∧
      CheckChaosParam "-1" = false ∧ CheckChaosParam "101" = false) ∧
    (CheckRepeatParam "1" = true ∧ CheckRepeatParam "40" = true ∧
      CheckRepeatParam "0" = false ∧ CheckRepeatParam "41" = false) ∧
    (CheckStopParam "10" = true ∧ CheckStopParam "100" = true ∧
      CheckStopParam "9" = false ∧ CheckStopParam "101" = false) ∧
    (CheckStylizeParam "0" = true ∧ CheckStylizeParam "1000" = true ∧
      CheckStylizeParam "-1" = false ∧ CheckStylizeParam "1001" = false) ∧
    (CheckStyleReferenceWeightParam "0" = true ∧ CheckStyleReferenceWeightParam "1000" = true ∧
      CheckStyleReferenceWeightParam "-1" = false ∧
      CheckStyleReferenceWeightParam "1001" = false) ∧
    (CheckWeirdParam "0" = true ∧ CheckWeirdParam "3000" = true ∧
      CheckWeirdParam "-1" = false ∧ CheckWeirdParam "3001" = false) :=
  ⟨atoiInRange_iff s 0 100 (by norm_num) (by norm_num),
   atoiInRange_iff s 1 40 (by norm_num) (by norm_num),
   atoiInRange_iff s 10 100 (by norm_num) (by norm_num),
   atoiInRange_iff s 0 1000 (by norm_num) (by norm_num),
   atoiInRange_iff s 0 1000 (by norm_num) (by norm_num),
   atoiInRange_iff s 0 3000 (by norm_num) (by norm_num),
   Atoi_iff s,
   by decide, by decide, by decide, by decide, by decide, by decide⟩

/-- C13: `CheckSeedParam` accepts a string iff it is a non-empty string of decimal digits
whose value is at most 4294967295; `4294967295` is accepted, and `4294967296`, `-1` and
the empty string are rejected. -/
theorem CheckSeedParam_spec (s : Str) :
    (CheckSeedParam s = true ↔
      s ≠ [] ∧ (∀ c ∈ s, IsDigit c) ∧ decimalValue s ≤ 4294967295) ∧
    CheckSeedParam "4294967295" = true ∧ CheckSeedParam "4294967296" = false ∧
    CheckSeedParam "-1" = false ∧ CheckSeedParam "" = false := by
  refine ⟨?_, by decide, by decide, by decide, by decide⟩
  unfold CheckSeedParam ParseUint
  constructor
  · intro h
    by_cases hne : s = []
    · simp [hne] at h
    · rw [if_neg hne] at h
      cases hk : parseDigits s 0 with
      | none => simp [hk] at h
      | some k =>
        obtain ⟨hall, hv⟩ := (parseDigits_iff s 0 k).1 hk
        have hk' : k = decimalValue s := hv
        rw [hk] at h
        by_cases hlt : k < 2 ^ 32
        · exact ⟨hne, hall, by omega⟩
        · dsimp only at h
          rw [if_neg hlt] at h
          exact absurd h (by simp)
  · rintro ⟨hne, hall, hle⟩
    have hp : parseDigits s 0 = some (decimalValue s) := (parseDigits_iff s 0 _).2 ⟨hall, rfl⟩
    rw [if_neg hne, hp]
    have hlt : decimalValue s < 2 ^ 32 := by omega
    dsimp only
    rw [if_pos hlt]

theorem splitGo_single_cons (d c : Char) (cur cs : Str) :
    splitGo [d] 0 cur (c :: cs) =
      if c = d then cur :: splitGo [d] 0 [] cs else splitGo [d] 0 (cur ++ [c]) cs := by
  rw [splitGo]
  by_cases hc : c = d
  · have h : HasPrefix (c :: cs) [d] = true := by
      simp [HasPrefix, List.isPrefixOf, hc]
    rw [if_pos h, if_pos hc]
    rfl
  · have h : ¬ HasPrefix (c :: cs) [d] = true := by
      have hc' : ¬ d = c := fun e => hc e.symm
      simp [HasPrefix, List.isPrefixOf, hc']
    rw [if_neg h, if_neg hc]

theorem splitGo_single_length (d : Char) (cur s : Str) :
    (splitGo [d] 0 cur s).length = s.count d + 1 := by
  induction s generalizing cur with
  | nil => simp [splitGo]
  | cons c cs ih =>
    rw [splitGo_single_cons]
    by_cases hc : c = d
    · rw [if_pos hc, List.length_cons, ih, hc, List.count_cons_self]
    · rw [if_neg hc, ih, List.count_cons_of_ne (fun e => hc e.symm)]

theorem splitGo_single_word (d : Char) (cur a : Str) (ha : d ∉ a) :
    splitGo [d] 0 cur a = [cur ++ a] := by
  induction a generalizing cur with
  | nil => simp [splitGo]
  | cons c cs ih =>
    have hc : ¬ c = d := fun e => ha (e ▸ List.mem_cons_self _ _)
    rw [splitGo_single_cons, if_neg hc, ih _ (fun h => ha (List.mem_cons_of_mem _ h))]
    simp

theorem splitGo_single_pair (d : Char) (cur a b : Str) (ha : d ∉ a) (hb : d ∉ b) :
    splitGo [d] 0 cur (a ++ d :: b) = [cur ++ a, b] := by
  induction a generalizing cur with
  | nil =>
    rw [List.nil_append, splitGo_single_cons, if_pos rfl, splitGo_single_word d [] b hb]
    simp
  | cons c cs ih =>
    have hc : ¬ c = d := fun e => ha (e ▸ List.mem_cons_self _ _)
    rw [List.cons_append, splitGo_single_cons, if_neg hc,
      ih _ (fun h => ha (List.mem_cons_of_mem _ h))]
    simp

theorem Atoi_no_colon (a : Str) (m : Int) (h : Atoi a = some m) : ':' ∉ a := by
  obtain ⟨⟨ds, _, hall, hcase⟩, _⟩ := (Atoi_iff a m).1 h
  have hd : ':' ∉ ds := fun hm => absurd (hall _ hm) (by unfold IsDigit; decide)
  rcases hcase with ⟨hs | hs, _⟩ | ⟨hs, _⟩
  · rw [hs]; exact hd
  · rw [hs]
    simp only [List.mem_cons, not_or]
    exact ⟨by decide, hd⟩
  · rw [hs]
    simp only [List.mem_cons, not_or]
    exact ⟨by decide, hd⟩

theorem CheckAspectParam_fields (s : Str) :
    CheckAspectParam s = true ↔
      ∃ a b m n, Split s ":" = [a, b] ∧ Atoi a = some m ∧ Atoi b = some n := by
  unfold CheckAspectParam
  dsimp only
  constructor
  · intro h
    split at h
    · exact absurd h (by simp)
    · rename_i hlen
      have hl : (Split s ":").length = 2 := by simpa using hlen
      match hs : Split s ":", hl with
      | [a, b], _ =>
        rw [hs] at h
        simp only [List.getD_cons_zero, List.getD_cons_succ] at h
        cases ha : Atoi a with
        | none => simp [ha] at h
        | some m =>
          cases hb : Atoi b with
          | none => simp [ha, hb] at h
          | some n => exact ⟨a, b, m, n, rfl, ha, hb⟩
  · rintro ⟨a, b, m, n, hs, ha, hb⟩
    rw [hs]
    simp [ha, hb]

theorem CheckAspectParam_iff (s : Str) :
    CheckAspectParam s = true ↔
      ∃ a b m n, s = a ++ ':' :: b ∧ Atoi a = some m ∧ Atoi b = some n := by
  rw [CheckAspectParam_fields]
  constructor
  · rintro ⟨a, b, m, n, hs, ha, hb⟩
    refine ⟨a, b, m, n, ?_, ha, hb⟩
    have hj : Join (Split s ":") ":" = s := by
      have := splitGo_single_join ':' [] s
      simpa [Split] using this
    rw [← hj, hs]
    show a ++ [':'] ++ b = a ++ ':' :: b
    simp
  · rintro ⟨a, b, m, n, hs, ha, hb⟩
    refine ⟨a, b, m, n, ?_, ha, hb⟩
    rw [hs]
    have := splitGo_single_pair ':' [] a b (Atoi_no_colon a m ha) (Atoi_no_colon b n hb)
    simpa [Split] using this

theorem CheckAspectParam_colons (s : Str) (h : s.count ':' ≠ 1) :
    CheckAspectParam s = false := by
  cases hc : CheckAspectParam s with
  | false => rfl
  | true =>
    obtain ⟨a, b, m, n, hs, _, _⟩ := (CheckAspectParam_fields s).1 hc
    have hl : (Split s ":").length = s.count ':' + 1 := by
      have := splitGo_single_length ':' [] s
      simpa [Split] using this
    rw [hs] at hl
    simp at hl
    omega

theorem aspectBlock_fail (param : Str) (st : ScanState)
    (hp : param = ("aspect" : Str) ∨ param = ("ar" : Str))
    (hv : CheckAspectParam st.value = false) :
    aspectBlock param st =
      .error (st.aspectRatio, invalidValue param st.value ". Default: 1:1") := by
  unfold aspectBlock
  rw [if_pos hp, hv]
  rfl

theorem scanWords_aspect_fail (E : Env) (name v : Str) (post : List Str) (st : ScanState)
    (hp : name = ("aspect" : Str) ∨ name = ("ar" : Str)) (hreg : name ∈ E.Params)
    (hv : CheckAspectParam v = false) :
    scanWords E ((("--" : Str) ++ name) :: v :: post) st =
      .error (st.aspectRatio, ("Invalid Param Value: --" : Str) ++ name ++ (" " : Str) ++ v
        ++ (". Default: 1:1" : Str)) := by
  have hl : CheckParamLegal E (TrimPrefix (("--" : Str) ++ name) "--") = true := by
    rw [TrimPrefix_append]; exact (CheckParamLegal_iff E name).2 hreg
  rw [scanWords_param E _ _ _ (HasPrefix_append _ _) hl, TrimPrefix_append]
  unfold paramBody paramChecks
  rw [aspectBlock_fail name _ hp hv]
  rfl

/-- C14: `CheckAspectParam` accepts a string iff splitting it on `:` yields exactly two
fields and both parse as integers, that is iff it is `a:b` with `a` and `b` integers; a
value without a colon or with two or more (such as `16:9:1`) is rejected. In the scan of
`CheckPromptParam` a rejected value after `--ar` or `--aspect` gives the error
`Invalid Param Value: --<name> <value>. Default: 1:1`, whatever the state of the scan, and
that is the result of `CheckPromptParam` when no parameter precedes it. -/
theorem CheckAspectParam_spec (E : Env) (s : Str) :
    (CheckAspectParam s = true ↔
      ∃ a b m n, Split s ":" = [a, b] ∧ Atoi a = some m ∧ Atoi b = some n) ∧
    (CheckAspectParam s = true ↔
      ∃ a b m n, s = a ++ ':' :: b ∧ Atoi a = some m ∧ Atoi b = some n) ∧
    (s.count ':' ≠ 1 → CheckAspectParam s = false) ∧
    CheckAspectParam "16:9:1" = false ∧
    (∀ (name : Str) (post : List Str) (st : ScanState),
      CheckAspectParam s = false → name = ("aspect" : Str) ∨ name = ("ar" : Str) →
      name ∈ E.Params →
      scanWords E ((("--" : Str) ++ name) :: s :: post) st =
        .error (st.aspectRatio, ("Invalid Param Value: --" : Str) ++ name ++ (" " : Str) ++ s
          ++ (". Default: 1:1" : Str))) ∧
    (∀ (name prompt : Str) (pre post : List Str),
      CheckAspectParam s = false → name = ("aspect" : Str) ∨ name = ("ar" : Str) →
      name ∈ E.Params → CheckPermutation prompt = none → Contains prompt "--" = true →
      CheckSpaces prompt = none → (∀ w ∈ pre, HasPrefix w "--" = false) →
      CheckPromptParam E prompt (pre ++ (("--" : Str) ++ name) :: s :: post) =
        (prompt, [], some (("Invalid Param Value: --" : Str) ++ name ++ (" " : Str) ++ s
          ++ (". Default: 1:1" : Str)))) := by
  refine ⟨CheckAspectParam_fields s, CheckAspectParam_iff s, CheckAspectParam_colons s,
    by decide, fun name post st hv hp hreg => scanWords_aspect_fail E name s post st hp hreg hv,
    ?_⟩
  intro name prompt pre post hv hp hreg hperm hdash hsp hpre
  unfold CheckPromptParam
  rw [hperm]; dsimp only
  rw [hdash, hsp, scanWords_skip_all E pre _ _ hpre,
    scanWords_aspect_fail E name s post _ hp hreg hv]
  rfl

/-- C14, on `sunset --ar 16:9:1` and its lowered words. -/
theorem CheckAspectParam_spec_witness :
    CheckPromptParam sampleEnv (PreprocessPrompt sampleEnv "sunset --ar 16:9:1").1
        (PreprocessPrompt sampleEnv "sunset --ar 16:9:1").2.1 =
      (("sunset --ar 16:9:1" : Str), [],
        some ("Invalid Param Value: --ar 16:9:1. Default: 1:1" : Str)) :=
  (CheckAspectParam_spec sampleEnv "16:9:1").2.2.2.2.2 "ar" "sunset --ar 16:9:1" [("sunset" : Str)] []
    (by decide) (Or.inr rfl) (by decide) (by decide) (by decide) (by decide) (by decide)

/-! ## Lengths in `CheckPromptStruct` -/

theorem len_replicate (n : Nat) (c : Char) : len (List.replicate n c) = n * c.utf8Size := by
  unfold len
  rw [List.map_replicate, List.sum_replicate]
  rfl

theorem CheckPromptStruct_plain (prompt : Str) (allowEmpty : Bool) (hne : prompt ≠ [])
    (hpre : HasPrefix prompt "--" = false) :
    CheckPromptStruct prompt allowEmpty =
      if 6000 < len prompt then some ErrPromptTooLong else none := by
  have h0 : len prompt ≠ 0 := by
    have := length_le_len prompt
    cases prompt with
    | nil => exact absurd rfl hne
    | cons c cs => simp at this; omega
  unfold CheckPromptStruct CheckPromptEmpty CheckPromptEmptyWithParams CheckPromptLength
  rw [if_neg h0, hpre]
  cases allowEmpty <;> by_cases h : 6000 < len prompt <;> simp [h]

/-- C15, failing input: a prompt of 3001 letters `é` has 3001 characters, well under 6000,
and `CheckPromptStruct` rejects it with `PromptTooLong`, because `len` counts its 6002
bytes. In general, on a non-empty prompt that does not begin with `--` the check fails
with `PromptTooLong` iff the prompt has more than 6000 bytes, and passes otherwise. -/
theorem CheckPromptStruct_counts_bytes (prompt : Str) (allowEmpty : Bool) :
    (prompt ≠ [] → HasPrefix prompt "--" = false →
      (CheckPromptStruct prompt allowEmpty = some ErrPromptTooLong ↔ 6000 < len prompt) ∧
      (CheckPromptStruct prompt allowEmpty = none ↔ len prompt ≤ 6000)) ∧
    (List.replicate 3001 'é').length = 3001 ∧
    len (List.replicate 3001 'é') = 6002 ∧
    CheckPromptStruct (List.replicate 3001 'é') allowEmpty = some ErrPromptTooLong := by
  have hl : len (List.replicate 3001 'é') = 6002 := by
    rw [len_replicate]; rfl
  refine ⟨fun hne hpre => ?_, List.length_replicate _ _, hl, ?_⟩
  · rw [CheckPromptStruct_plain prompt allowEmpty hne hpre]
    by_cases h : 6000 < len prompt
    · simp [h]
    · simp [h]; omega
  · rw [CheckPromptStruct_plain _ allowEmpty (by decide) (by decide), hl]
    rfl

/-- C15, on a prompt of 6000 letters `a`, which passes. -/
theorem CheckPromptStruct_counts_bytes_witness :
    CheckPromptStruct (List.replicate 6000 'a') false = none :=
  ((CheckPromptStruct_counts_bytes (List.replicate 6000 'a') false).1 (by decide) (by decide)).2.2
    (by rw [len_replicate]; decide)

/-! ## The occurrences checked by `CheckSpaces` -/

theorem dashScan_shift (s : Str) (k p : Nat) :
    dashScan k p s = (dashScan k 0 s).map (· + p) := by
  induction s generalizing k p with
  | nil => simp [dashScan]
  | cons c cs ih =>
    cases k with
    | succ k =>
      rw [dashScan, dashScan, ih k (p + 1), ih k (0 + 1), List.map_map]
      congr 1
      funext x
      simp only [Function.comp_apply]
      omega
    | zero =>
      rw [dashScan, dashScan]
      split
      · rw [List.map_cons, ih 1 (p + 1), ih 1 (0 + 1), List.map_map]
        congr 1
        · omega
        · congr 1
          funext x
          simp only [Function.comp_apply]
          omega
      · rw [ih 0 (p + 1), ih 0 (0 + 1), List.map_map]
        congr 1
        funext x
        simp only [Function.comp_apply]
        omega

theorem dashScan_skip (s : Str) (k p : Nat) :
    dashScan k p s = dashScan 0 (p + k) (s.drop k) := by
  induction s generalizing k p with
  | nil => simp [dashScan]
  | cons c cs ih =>
    cases k with
    | zero => rfl
    | succ k =>
      rw [dashScan, ih k (p + 1), List.drop_succ_cons]
      congr 1
      omega

theorem dashScan_index (s : Str) :
    dashScan 0 0 s =
      match Index s "--" with
      | none => []
      | some i => i :: (dashScan 0 0 (s.drop (i + 2))).map (· + (i + 2)) := by
  induction s with
  | nil => rfl
  | cons c cs ih =>
    rw [dashScan, Index]
    by_cases h : HasPrefix (c :: cs) "--" = true
    · rw [if_pos h, if_pos h]
      dsimp only
      rw [dashScan_skip cs 1 (0 + 1), dashScan_shift _ 0 (0 + 1 + 1)]
      rfl
    · rw [if_neg h, if_neg h, dashScan_shift cs 0 (0 + 1), ih]
      cases Index cs "--" with
      | none => rfl
      | some i =>
        simp only [Option.map_some', List.map_cons, List.map_map, List.drop_succ_cons]
        congr 1

theorem Index_found (s sub : Str) (i : Nat) (h : Index s sub = some i) :
    HasPrefix (s.drop i) sub = true := by
  induction s generalizing i with
  | nil =>
    rw [Index] at h
    split at h
    · rename_i hs
      subst hs
      simp [HasPrefix]
    · exact absurd h (by simp)
  | cons c cs ih =>
    rw [Index] at h
    by_cases hp : HasPrefix (c :: cs) sub = true
    · rw [if_pos hp] at h
      simp only [Option.some.injEq] at h
      subst h
      exact hp
    · rw [if_neg hp] at h
      cases hi : Index cs sub with
      | none => rw [hi] at h; exact absurd h (by simp)
      | some j =>
        rw [hi] at h
        simp only [Option.map_some', Option.some.injEq] at h
        subst h
        exact ih j hi

theorem Index_dash_next (s : Str) (i : Nat) (h : Index s "--" = some i) :
    s[i + 1]? = some '-' := by
  have hp := (HasPrefix_iff _ _).1 (Index_found s _ i h)
  obtain ⟨t, ht⟩ := hp
  have : (s.drop i)[1]? = some '-' := by
    rw [← ht]
    show (['-', '-'] ++ t)[1]? = some '-'
    simp
  rwa [List.getElem?_drop] at this

theorem SpacedDash_drop (s : Str) (i q : Nat) (h : Index s "--" = some i) :
    SpacedDash s (q + (i + 2)) ↔ SpacedDash (s.drop (i + 2)) q := by
  unfold SpacedDash
  cases q with
  | zero =>
    have := Index_dash_next s i h
    simp only [Nat.zero_add, Nat.add_sub_cancel, ne_eq, not_true_eq_false, false_and, iff_false,
      not_and]
    intro _ h1
    have e : i + 2 - 1 = i + 1 := by omega
    rw [e, this] at h1
    exact absurd h1 (by decide)
  | succ q =>
    have e1 : q + 1 + (i + 2) - 1 = (i + 2) + q := by omega
    have e2 : q + 1 + (i + 2) + 2 = (i + 2) + (q + 1 + 2) := by omega
    rw [e1, e2, List.getElem?_drop, List.getElem?_drop]
    simp

theorem checkSpacesLoop_iff (n : Nat) :
    ∀ s : Str, s.length ≤ n →
      (checkSpacesLoop n s = none ↔ ∀ p ∈ dashScan 0 0 s, SpacedDash s p) := by
  induction n with
  | zero =>
    intro s hs
    have : s = [] := List.length_eq_zero.1 (Nat.le_zero.1 hs)
    subst this
    simp [checkSpacesLoop, dashScan]
  | succ n ih =>
    intro s hs
    rw [checkSpacesLoop, dashScan_index]
    cases hi : Index s "--" with
    | none => simp
    | some i =>
      dsimp only
      simp only [List.mem_cons, List.mem_map, forall_eq_or_imp, forall_exists_index, and_imp,
        forall_apply_eq_imp_iff₂]
      have hrest : (∀ q ∈ dashScan 0 0 (s.drop (i + 2)), SpacedDash s (q + (i + 2))) ↔
          checkSpacesLoop n (s.drop (i + 2)) = none := by
        rw [ih (s.drop (i + 2)) (by rw [List.length_drop]; omega)]
        constructor
        · intro h q hq
          exact (SpacedDash_drop s i q hi).1 (h q hq)
        · intro h q hq
          exact (SpacedDash_drop s i q hi).2 (h q hq)
      rw [hrest]
      unfold SpacedDash
      by_cases h1 : i = 0 ∨ s[i - 1]? ≠ some ' '
      · rw [if_pos h1]
        simp only [reduceCtorEq, false_iff, not_and]
        intro h2
        rcases h1 with h1 | h1
        · exact absurd h1 h2.1
        · exact absurd h2.2.1 h1
      · rw [if_neg h1]
        have h1' : i ≠ 0 ∧ s[i - 1]? = some ' ' := by
          constructor
          · exact fun e => h1 (Or.inl e)
          · by_contra hc
            exact h1 (Or.inr hc)
        by_cases h2 : s[i + 2]? = some ' '
        · rw [if_pos h2]
          simp only [reduceCtorEq, false_iff, not_and]
          intro h3
          exact absurd h2 h3.2.2
        · rw [if_neg h2]
          constructor
          · intro h; exact ⟨⟨h1'.1, h1'.2, h2⟩, h⟩
          · intro h; exact h.2

theorem CheckSpaces_format (s e : Str) (h : CheckSpaces s = some e) :
    HasPrefix e ErrInvalidParamFormat = true := by
  unfold CheckSpaces at h
  generalize s.length = n at h
  induction n generalizing s with
  | zero => simp [checkSpacesLoop] at h
  | succ n ih =>
    rw [checkSpacesLoop] at h
    split at h
    · exact absurd h (by simp)
    · split at h
      · simp only [Option.some.injEq] at h
        rw [← h]; exact HasPrefix_append _ _
      · split at h
        · simp only [Option.some.injEq] at h
          rw [← h]; exact HasPrefix_append _ _
        · exact ih _ h

/-- C16, amended: `CheckSpaces` succeeds iff every occurrence of `--` found by its
left-to-right scan is immediately preceded by a space, hence not at position 0, and is
not immediately followed by a space; every failure is an `InvalidParamFormat` error. A
prompt that begins with `--` fails with `there should be space before --`. -/
theorem CheckSpaces_spec (s : Str) :
    (CheckSpaces s = none ↔ ∀ p ∈ dashOccurrences s, SpacedDash s p) ∧
    (∀ e, CheckSpaces s = some e → HasPrefix e ErrInvalidParamFormat = true) ∧
    (HasPrefix s "--" = true → CheckSpaces s =
      some (ErrInvalidParamFormat ++ (": there should be space before --" : Str))) := by
  refine ⟨checkSpacesLoop_iff s.length s (Nat.le_refl _), CheckSpaces_format s, ?_⟩
  intro h
  cases s with
  | nil => exact absurd h (by decide)
  | cons c cs =>
    unfold CheckSpaces
    rw [List.length_cons, checkSpacesLoop, Index, if_pos h]
    rfl

/-- C16, amended, on `--ar 16:9`. -/
theorem CheckSpaces_spec_witness :
    CheckSpaces "--ar 16:9" =
      some (ErrInvalidParamFormat ++ (": there should be space before --" : Str)) :=
  (CheckSpaces_spec "--ar 16:9").2.2 (by decide)

/-- C16 as stated fails: in `--ar 16:9` the only occurrence of `--` is at position 0 and is
followed by `a`, so it meets the condition of the claim, and `CheckSpaces` fails. -/
theorem CheckSpaces_spec_counterexample :
    dashOccurrences "--ar 16:9" = [0] ∧
    (∀ p ∈ dashOccurrences "--ar 16:9",
      (p = 0 ∨ ("--ar 16:9" : Str)[p - 1]? = some ' ') ∧
        ("--ar 16:9" : Str)[p + 2]? ≠ some ' ') ∧
    CheckSpaces "--ar 16:9" ≠ none := by
  decide

/-! ## Values that slip through the scan of `CheckPromptParam` -/

theorem CheckIWParam_finite (E : Env) (s : Str) (q : ℚ) (h : E.ParseFloat s = some (.finite q)) :
    CheckIWParam E s = true ↔ 0 ≤ q ∧ q ≤ 2 := by
  unfold CheckIWParam
  rw [h]
  simp only [Float64.lt, Bool.or_eq_true, decide_eq_true_eq]
  constructor
  · intro h'
    by_cases hc : q < 0 ∨ 2 < q
    · simp [hc] at h'
    · constructor
      · by_contra hn; exact hc (Or.inl (lt_of_not_le hn))
      · by_contra hn; exact hc (Or.inr (lt_of_not_le hn))
  · rintro ⟨h1, h2⟩
    have hc : ¬ (q < 0 ∨ 2 < q) := by
      rintro (h3 | h3)
      · exact absurd h1 (not_le_of_lt h3)
      · exact absurd h2 (not_le_of_lt h3)
    simp [hc]

/-- C17, failing input: when the float parser returns NaN for `nan`, as `strconv.ParseFloat`
does, `CheckIWParam` accepts `nan`, and `CheckPromptParam` accepts `cat --iw nan`: both
comparisons `iw < 0` and `iw > 2` are false on NaN. On a finite result the check accepts
iff the number lies in the closed range 0-2, and it rejects parse errors and infinities. -/
theorem CheckIWParam_nan (E : Env) (hnan : E.ParseFloat "nan" = some Float64.nan) :
    CheckIWParam E "nan" = true ∧
    (("iw" : Str) ∈ E.Params →
      CheckPromptParam E "cat --iw nan" [("cat" : Str), ("--iw" : Str), ("nan" : Str)] =
        (("cat --iw nan" : Str), [], none)) ∧
    (∀ s q, E.ParseFloat s = some (.finite q) → (CheckIWParam E s = true ↔ 0 ≤ q ∧ q ≤ 2)) ∧
    (∀ s, E.ParseFloat s = none ∨ E.ParseFloat s = some .posInf ∨
      E.ParseFloat s = some .negInf → CheckIWParam E s = false) := by
  have h1 : CheckIWParam E "nan" = true := by
    unfold CheckIWParam
    rw [hnan]
    rfl
  refine ⟨h1, fun hreg => ?_, fun s q h => CheckIWParam_finite E s q h, ?_⟩
  · have hl : CheckParamLegal E (TrimPrefix ("--iw" : Str) "--") = true :=
      (CheckParamLegal_iff E _).2 hreg
    have hb : ∀ st : ScanState, paramBody E (TrimPrefix ("--iw" : Str) "--") [("nan" : Str)] st =
        .ok ⟨"nan", st.aspectRatio, st.unsupportParams⟩ := by
      intro st
      have e : paramBody E (TrimPrefix ("--iw" : Str) "--") [("nan" : Str)] st =
          (checkBlock ["iw"] (CheckIWParam E) ". Default: 1, Range: 0-2" ("iw" : Str)
            ⟨"nan", st.aspectRatio, st.unsupportParams⟩).bind .ok := rfl
      rw [e]
      unfold checkBlock
      rw [if_pos (by decide)]
      dsimp only
      rw [h1]
      rfl
    unfold CheckPromptParam
    have hp : CheckPermutation "cat --iw nan" = none := by decide
    have hd : (!Contains "cat --iw nan" "--") = false := by decide
    have hs : CheckSpaces "cat --iw nan" = none := by decide
    rw [hp]; dsimp only
    rw [hd, hs, scanWords_skip E _ _ _ (by decide), scanWords_param E _ _ _ (by decide) hl, hb]
    dsimp only
    rw [scanWords_skip E _ _ _ (by decide)]
    rfl
  · intro s h
    unfold CheckIWParam
    rcases h with h | h | h <;> rw [h] <;> rfl

/-- C17, failing input, on an environment whose float parser knows `nan`. -/
theorem CheckIWParam_nan_witness :
    CheckPromptParam floatEnv (PreprocessPrompt floatEnv "cat --iw nan").1
        (PreprocessPrompt floatEnv "cat --iw nan").2.1 = (("cat --iw nan" : Str), [], none) :=
  (CheckIWParam_nan floatEnv (by decide)).2.1 (by decide)

/-- C18, failing input: on `cat --chaos 5 --chaos` the last word is `--chaos` and
`CheckPromptParam` succeeds, because `value` still holds the `5` read for the earlier
parameter. When no parameter precedes a last word `--chaos`, `--stop`, `--seed` or `--ar`,
the value is empty and the check fails with `InvalidParamValue`. -/
theorem CheckPromptParam_stale_value (E : Env) :
    (("chaos" : Str) ∈ E.Params →
      CheckPromptParam E "cat --chaos 5 --chaos"
          [("cat" : Str), ("--chaos" : Str), ("5" : Str), ("--chaos" : Str)] =
        (("cat --chaos 5 --chaos" : Str), [], none)) ∧
    (∀ (name prompt : Str) (pre : List Str),
      name ∈ [("chaos" : Str), ("stop" : Str), ("seed" : Str), ("ar" : Str)] →
      name ∈ E.Params → CheckPermutation prompt = none → Contains prompt "--" = true →
      CheckSpaces prompt = none → (∀ w ∈ pre, HasPrefix w "--" = false) →
      ∃ hint : Str, CheckPromptParam E prompt (pre ++ [(("--" : Str) ++ name)]) =
        (prompt, [], some (invalidValue name [] hint))) := by
  constructor
  · intro hreg
    have hl : CheckParamLegal E (TrimPrefix ("--chaos" : Str) "--") = true :=
      (CheckParamLegal_iff E _).2 hreg
    have hb1 : paramBody E (TrimPrefix ("--chaos" : Str) "--")
        [("5" : Str), ("--chaos" : Str)] ⟨[], [], []⟩ = .ok ⟨"5", [], []⟩ := rfl
    have hb2 : paramBody E (TrimPrefix ("--chaos" : Str) "--") [] ⟨"5", [], []⟩ =
        .ok ⟨"5", [], []⟩ := rfl
    have hp : CheckPermutation "cat --chaos 5 --chaos" = none := by decide
    have hd : (!Contains "cat --chaos 5 --chaos" "--") = false := by decide
    have hs : CheckSpaces "cat --chaos 5 --chaos" = none := by decide
    unfold CheckPromptParam
    rw [hp]; dsimp only
    rw [hd, hs, scanWords_skip E _ _ _ (by decide), scanWords_param E _ _ _ (by decide) hl, hb1]
    dsimp only
    rw [scanWords_skip E _ _ _ (by decide), scanWords_param E _ _ _ (by decide) hl, hb2]
    rfl
  · intro name prompt pre hname hreg hperm hdash hsp hpre
    have hl : CheckParamLegal E (TrimPrefix (("--" : Str) ++ name) "--") = true := by
      rw [TrimPrefix_append]; exact (CheckParamLegal_iff E name).2 hreg
    have hbody : ∃ hint : Str, paramBody E name [] ⟨[], [], []⟩ =
        .error ([], invalidValue name [] hint) := by
      simp only [List.mem_cons, List.mem_singleton, List.not_mem_nil, or_false] at hname
      rcases hname with rfl | rfl | rfl | rfl
      · exact ⟨_, rfl⟩
      · exact ⟨_, rfl⟩
      · exact ⟨_, rfl⟩
      · exact ⟨_, rfl⟩
    obtain ⟨hint, hb⟩ := hbody
    refine ⟨hint, ?_⟩
    unfold CheckPromptParam
    rw [hperm]; dsimp only
    rw [hdash, hsp, scanWords_skip_all E pre _ _ hpre,
      scanWords_param E _ _ _ (HasPrefix_append _ _) hl, TrimPrefix_append, hb]
    rfl

/-- C18, failing input, on the sample environment. -/
theorem CheckPromptParam_stale_value_witness :
    CheckPromptParam sampleEnv (PreprocessPrompt sampleEnv "cat --chaos 5 --chaos").1
        (PreprocessPrompt sampleEnv "cat --chaos 5 --chaos").2.1 =
      (("cat --chaos 5 --chaos" : Str), [], none) :=
  (CheckPromptParam_stale_value sampleEnv).1 (by decide)

/-- C19, failing input: on `x --ar 1:2 --ar 1:22` the check succeeds and returns the prompt
`x2`, whose only token is not a token of the input: the pattern ` --ar 1:2` is removed
first and matches inside ` --ar 1:22` too, so the `2` left over joins `x`. What holds in
general is that the returned prompt is the input with some code points deleted. -/
theorem CheckPromptParam_merged_token (E : Env) :
    (("ar" : Str) ∈ E.Params →
      CheckPromptParam E "x --ar 1:2 --ar 1:22"
          [("x" : Str), ("--ar" : Str), ("1:2" : Str), ("--ar" : Str), ("1:22" : Str)] =
        (("x2" : Str), ("1:22" : Str), none)) ∧
    Split "x2" " " = [("x2" : Str)] ∧
    ("x2" : Str) ∉ Split "x --ar 1:2 --ar 1:22" " " ∧
    (∀ (prompt : Str) (words : List Str), (CheckPromptParam E prompt words).2.2 = none →
      List.Sublist (CheckPromptParam E prompt words).1 prompt) := by
  refine ⟨fun hreg => ?_, by decide, by decide, fun prompt words h => ?_⟩
  · have hl : CheckParamLegal E (TrimPrefix ("--ar" : Str) "--") = true :=
      (CheckParamLegal_iff E _).2 hreg
    have hb1 : paramBody E (TrimPrefix ("--ar" : Str) "--")
        [("1:2" : Str), ("--ar" : Str), ("1:22" : Str)] ⟨[], [], []⟩ =
          .ok ⟨"1:2", "1:2", [(" --ar 1:2" : Str)]⟩ := rfl
    have hb2 : paramBody E (TrimPrefix ("--ar" : Str) "--") [("1:22" : Str)]
        ⟨"1:2", "1:2", [(" --ar 1:2" : Str)]⟩ =
          .ok ⟨"1:22", "1:22", [(" --ar 1:2" : Str), (" --ar 1:22" : Str)]⟩ := rfl
    have hp : CheckPermutation "x --ar 1:2 --ar 1:22" = none := by decide
    have hd : (!Contains "x --ar 1:2 --ar 1:22" "--") = false := by decide
    have hs : CheckSpaces "x --ar 1:2 --ar 1:22" = none := by decide
    unfold CheckPromptParam
    rw [hp]; dsimp only
    rw [hd, hs, scanWords_skip E _ _ _ (by decide), scanWords_param E _ _ _ (by decide) hl, hb1]
    dsimp only
    rw [scanWords_skip E _ _ _ (by decide), scanWords_param E _ _ _ (by decide) hl, hb2]
    dsimp only
    rw [scanWords_skip E _ _ _ (by decide)]
    have hr : RemoveUnsupportParams ("x --ar 1:2 --ar 1:22" : Str)
        [(" --ar 1:2" : Str), (" --ar 1:22" : Str)] = ("x2" : Str) := by decide
    show (if false = true then _ else
      (RemoveUnsupportParams ("x --ar 1:2 --ar 1:22" : Str)
        [(" --ar 1:2" : Str), (" --ar 1:22" : Str)], ("1:22" : Str), none)) = _
    rw [hr]
    rfl
  · obtain ⟨_, pats, _, hq⟩ := (CheckPromptParam_result E prompt words).2 h
    rw [hq]
    exact RemoveUnsupportParams_sublist _ _

/-- C19, failing input, on the sample environment. -/
theorem CheckPromptParam_merged_token_witness :
    CheckPromptParam sampleEnv (PreprocessPrompt sampleEnv "x --ar 1:2 --ar 1:22").1
        (PreprocessPrompt sampleEnv "x --ar 1:2 --ar 1:22").2.1 =
      (("x2" : Str), ("1:22" : Str), none) :=
  (CheckPromptParam_merged_token sampleEnv).1 (by decide)

/-! ## Counting in `CheckImageUrlPosition` -/

/-- C20, amended: `CheckImageUrlPosition` succeeds iff the number of URLs equals the number
of parts starting with `http` in the leading block plus their number in the run that
follows the first `--sref` part found from the end of that block on; any other outcome is
`InvalidImagePromptPosition`. Parts after that run, such as those after a second
`--sref`, are not counted: when the list has as many URLs as the prompt has parts
starting with `http` and one of these lies after the run, the check fails. -/
theorem CheckImageUrlPosition_single_resume (parts urls : List Str) :
    (CheckImageUrlPosition parts urls = none ↔
      urls.length = (frontBlock parts).countP httpPart + (srefRun parts).countP httpPart) ∧
    (CheckImageUrlPosition parts urls ≠ none →
      CheckImageUrlPosition parts urls = some ErrInvalidImagePromptPosition) ∧
    (urls.length = parts.countP httpPart → (∃ p ∈ afterRun parts, httpPart p = true) →
      CheckImageUrlPosition parts urls = some ErrInvalidImagePromptPosition) := by
  refine ⟨CheckImageUrlPosition_iff parts urls, CheckImageUrlPosition_err parts urls, ?_⟩
  rintro hcount ⟨p, hp, hhttp⟩
  apply CheckImageUrlPosition_err
  intro hok
  have h1 := (CheckImageUrlPosition_iff parts urls).1 hok
  have h2 := countP_parts parts
  have h3 : 0 < (afterRun parts).countP httpPart := List.countP_pos_iff.2 ⟨p, hp, hhttp⟩
  omega

/-- C20, amended, on a prompt with one URL after each of two `--sref` parts. -/
theorem CheckImageUrlPosition_single_resume_witness :
    CheckImageUrlPosition (SplitSpaceComma "a --sref http://x.png --sref http://y.png")
        [("http://x.png" : Str), ("http://y.png" : Str)] = some ErrInvalidImagePromptPosition :=
  (CheckImageUrlPosition_single_resume (SplitSpaceComma "a --sref http://x.png --sref http://y.png")
    [("http://x.png" : Str), ("http://y.png" : Str)]).2.2 (by decide)
    ⟨("http://y.png" : Str), by decide, by decide⟩

/-- C20 as stated fails in its last clause: in `httpfoo --sref http://x.png --sref http://y.png`
the second URL is attached to the second `--sref`, and the check succeeds for the two
URLs, because the part `httpfoo` is counted in the leading block. -/
theorem CheckImageUrlPosition_single_resume_counterexample :
    SplitSpaceComma "httpfoo --sref http://x.png --sref http://y.png" =
      [("httpfoo" : Str), ("--sref" : Str), ("http://x.png" : Str), ("--sref" : Str),
       ("http://y.png" : Str)] ∧
    afterRun (SplitSpaceComma "httpfoo --sref http://x.png --sref http://y.png") =
      [("--sref" : Str), ("http://y.png" : Str)] ∧
    CheckImageUrlPosition (SplitSpaceComma "httpfoo --sref http://x.png --sref http://y.png")
      [("http://x.png" : Str), ("http://y.png" : Str)] = none := by
  decide

end Checker
